import Mathlib

/-!
# Smart blind-assist stick: the control loop of `blind_stick.c`

A shallow embedding of the firmware's runtime part (`delay_us`, `delay_ms`,
`Buzzer_Beep`, `Ultrasonic_Send_Trigger`, `Ultrasonic_Get_Distance` and the body
of the `while(1)` loop of `main`) and theorems about it.

Conventions of the embedding.

* `uint32_t` values are natural numbers; arithmetic that can leave the 32-bit
  range is reduced with `% 2 ^ 32` where the C code computes it.
* The output register `GPIOA->ODR` is the field `odr` of the machine state.
  Every read-modify-write of it and every call of `delay_us` is also logged, in
  program order, in the field `trace`.
* The input registers are volatile: the value of the `n`-th load of
  `GPIOA->IDR` is `idr n`, the value of the `n`-th load of `ADC1->SR` is `sr n`,
  for streams `idr sr : Nat → Nat` supplied by the environment.  The state
  counts the loads made so far.
* The two polling loops without a bound in the source (`ADC1->SR`, echo LOW)
  take a `fuel` argument and return `none` when it runs out.
-/

namespace BlindStick

/-! ## Data model -/

/-- The observable actions of the firmware, in program order. -/
inductive Event where
  /-- The statement `GPIOA->ODR |= (1 << pin)`. -/
  | setPin (pin : Nat)
  /-- The statement `GPIOA->ODR &= ~(1 << pin)`. -/
  | clearPin (pin : Nat)
  /-- A call `delay_us(us)`. -/
  | delay_us (us : Nat)
  deriving DecidableEq, Repr

/-- The machine state the control loop works on. -/
structure Machine where
  /-- The value of `GPIOA->ODR`. -/
  odr : Nat
  /-- The number of `__NOP()` executed so far. -/
  nops : Nat
  /-- The number of loads from `GPIOA->IDR` so far. -/
  idrReads : Nat
  /-- The number of loads from `ADC1->SR` so far. -/
  srReads : Nat
  /-- The log of register writes and delay calls, oldest first. -/
  trace : List Event
  deriving DecidableEq, Repr

/-- The constant `LDR_THRESHOLD` (an `int`). -/
def LDR_THRESHOLD : Int := 100

/-- The value an `int` takes when a 32-bit register value is stored in it
(`adcData = ADC1->DR`). -/
def toInt32 (v : Nat) : Int :=
  if v % 2 ^ 32 < 2 ^ 31 then ((v % 2 ^ 32 : Nat) : Int) else ((v % 2 ^ 32 : Nat) : Int) - 2 ^ 32

/-- The statement `GPIOA->ODR |= (1 << pin)`. -/
def setBit (pin : Nat) (m : Machine) : Machine :=
  { m with odr := m.odr ||| (1 <<< pin), trace := m.trace ++ [Event.setPin pin] }

/-- The statement `GPIOA->ODR &= ~(1 << pin)`; on 32 bits `~(1 << pin)` is
`0xFFFFFFFF` with bit `pin` flipped. -/
def clearBit (pin : Nat) (m : Machine) : Machine :=
  { m with odr := m.odr &&& (0xFFFFFFFF ^^^ (1 <<< pin)),
           trace := m.trace ++ [Event.clearPin pin] }

/-- The counted loop `for (uint32_t i = 0; i < n; i++) body`, for a body that
neither reads nor writes `i` and `n`: `body` runs once for each of
`i = 0, …, n - 1`.  (`n < 2 ^ 32`, so `i++` never wraps before the exit test.) -/
def forCount (n : Nat) (body : Machine → Machine) (m : Machine) : Machine :=
  match n with
  | 0 => m
  | k + 1 => forCount k body (body m)

/-- The instruction `__NOP()`. -/
def nop (m : Machine) : Machine :=
  { m with nops := m.nops + 1 }

/-! ## Timing -/

/-- The function `delay_us`: the loop bound `us * 8` is computed in `uint32_t`. -/
def delay_us (us : Nat) (m : Machine) : Machine :=
  forCount ((us * 8) % 2 ^ 32) nop { m with trace := m.trace ++ [Event.delay_us us] }

/-- The function `delay_ms`. -/
def delay_ms (ms : Nat) (m : Machine) : Machine :=
  forCount ms (delay_us 1000) m

/-! ## Buzzer -/

/-- One pass through the body of the loop of `Buzzer_Beep`. -/
def buzzerCycle (half_period_us : Nat) (m : Machine) : Machine :=
  delay_us half_period_us (clearBit 5 (delay_us half_period_us (setBit 5 m)))

/-- The function `Buzzer_Beep`; all three locals are `uint32_t`, and only the
product `frequency * duration_ms` can leave the 32-bit range. -/
def Buzzer_Beep (frequency duration_ms : Nat) (m : Machine) : Machine :=
  if frequency = 0 then m
  else
    let period_us := 1000000 / frequency
    let half_period_us := period_us / 2
    let cycles := ((frequency * duration_ms) % 2 ^ 32) / 1000
    forCount cycles (buzzerCycle half_period_us) m

/-! ## Ultrasonic ranging -/

/-- The function `Ultrasonic_Send_Trigger`. -/
def Ultrasonic_Send_Trigger (m : Machine) : Machine :=
  clearBit 6 (delay_us 10 (setBit 6 m))

/-- The loop `while (!(GPIOA->IDR & (1 << 1)));`: one load of the input register
per test, left as soon as bit 1 reads set. -/
def echoWait (idr : Nat → Nat) : Nat → Machine → Option Machine
  | 0, _ => none
  | fuel + 1, m =>
    if idr m.idrReads &&& (1 <<< 1) = 0 then
      echoWait idr fuel { m with idrReads := m.idrReads + 1 }
    else
      some { m with idrReads := m.idrReads + 1 }

/-- The loop
`while (GPIOA->IDR & (1 << 1)) { time++; delay_us(1); if (time > 30000) break; }`
started with the counter at `time`; it returns the final value of the counter. -/
def pulseLoop (idr : Nat → Nat) : Nat → Nat → Machine → Option (Nat × Machine)
  | 0, _, _ => none
  | fuel + 1, time, m =>
    if idr m.idrReads &&& (1 <<< 1) ≠ 0 then
      let time1 := (time + 1) % 2 ^ 32
      let m1 := delay_us 1 { m with idrReads := m.idrReads + 1 }
      if time1 > 30000 then some (time1, m1)
      else pulseLoop idr fuel time1 m1
    else
      some (time, { m with idrReads := m.idrReads + 1 })

/-- The function `Ultrasonic_Get_Distance`: the returned distance and the state
it leaves. -/
def Ultrasonic_Get_Distance (idr : Nat → Nat) (fuel : Nat) (m : Machine) :
    Option (Nat × Machine) :=
  match echoWait idr fuel (Ultrasonic_Send_Trigger m) with
  | none => none
  | some m1 =>
    match pulseLoop idr fuel 0 m1 with
    | none => none
    | some (time, m2) => some (time / 58, m2)

/-! ## The control loop -/

/-- The loop `while (!(ADC1->SR & (1U << 1)));`. -/
def adcWait (sr : Nat → Nat) : Nat → Machine → Option Machine
  | 0, _ => none
  | fuel + 1, m =>
    if sr m.srReads &&& (1 <<< 1) = 0 then
      adcWait sr fuel { m with srReads := m.srReads + 1 }
    else
      some { m with srReads := m.srReads + 1 }

/-- Module 1 of the loop body after the conversion has completed:
`adcData = ADC1->DR` for a data register that reads `sample`, and the `if` on
`adcData > LDR_THRESHOLD`. -/
def lightModule (sample : Nat) (m : Machine) : Machine :=
  let adcData := toInt32 sample
  if adcData > LDR_THRESHOLD then
    delay_ms 100 (clearBit 3 (delay_ms 100 (setBit 3 m)))
  else
    clearBit 3 m

/-- The `if (!(distance < 5 && distance > 2))` statement of module 2. -/
def obstacleAlert (distance : Nat) (m : Machine) : Machine :=
  if ¬ (distance < 5 ∧ distance > 2) then
    delay_ms 100 (Buzzer_Beep 2000 200 m)
  else
    m

/-- Module 3 of the loop body: the `if (!(GPIOA->IDR & (1U << 0)))` statement. -/
def buttonModule (idr : Nat → Nat) (m : Machine) : Machine :=
  let m1 := { m with idrReads := m.idrReads + 1 }
  if idr m.idrReads &&& (1 <<< 0) = 0 then
    delay_ms 100 (Buzzer_Beep 2800 100 (setBit 2 m1))
  else
    clearBit 2 m1

/-- One pass through the body of `while(1)` in `main`. -/
def loopPass (sr idr : Nat → Nat) (sample : Nat) (fuel : Nat) (m : Machine) :
    Option Machine :=
  match adcWait sr fuel m with
  | none => none
  | some m0 =>
    match Ultrasonic_Get_Distance idr fuel (lightModule sample m0) with
    | none => none
    | some (distance, m2) =>
      some (delay_ms 10 (buttonModule idr (obstacleAlert distance m2)))

/-! ## Concrete inputs used in the examples -/

/-- The machine at reset of the log: all outputs LOW, nothing executed yet. -/
def startMachine : Machine := ⟨0, 0, 0, 0, []⟩

/-- An input stream with the button released (bit 0 set) all the time and the
echo (bit 1) LOW on loads 0 and 1, HIGH on loads 2 to 582 and LOW from load
583 on: after the load that sees the echo rise, 580 loads see it HIGH. -/
def echoFor580 (n : Nat) : Nat :=
  if 2 ≤ n ∧ n < 583 then 3 else 1

/-- A status stream in which the conversion-complete flag (bit 1 of `ADC1->SR`)
is set on every load. -/
def adcReady (_ : Nat) : Nat := 2

/-- An input stream whose echo bit reads HIGH on loads 0 to 30044 and LOW from
load 30045 on: after the load that sees the echo rise, 30044 loads see it HIGH
and the next one sees it LOW. -/
def echoFor30044 (n : Nat) : Nat :=
  if n ≤ 30044 then 2 else 0

/-- An input stream whose echo bit reads HIGH on every load. -/
def echoStuckHigh (_ : Nat) : Nat := 2

/-! ## States reached inside `Ultrasonic_Get_Distance` -/

/-- The state in which the loop waiting for the echo is left when the echo first
reads HIGH on its load number `j` (counted from 0) after the trigger pulse. -/
def afterEchoWait (m : Machine) (j : Nat) : Machine :=
  { Ultrasonic_Send_Trigger m with idrReads := m.idrReads + j + 1 }

/-- The state in which the measurement loop, entered in `m1`, is left after
`polls` loads of the input register and `time` passes through its body. -/
def afterPulse (m1 : Machine) (time polls : Nat) : Machine :=
  { m1 with idrReads := m1.idrReads + polls,
            nops := m1.nops + 8 * time,
            trace := m1.trace ++ List.replicate time (Event.delay_us 1) }

/-! ## Measures on the log -/

/-- The microseconds one event asks `delay_us` for: the argument of the call,
and 0 for a pin write. -/
def Event.requested : Event → Nat
  | Event.delay_us us => us
  | Event.setPin _ => 0
  | Event.clearPin _ => 0

/-- The sum of the arguments of all the `delay_us` calls of a log. -/
def requestedDelay (es : List Event) : Nat :=
  (es.map Event.requested).sum

/-! ## Writes to the output register -/

/-- The pins whose mode `System_Init` sets to output: PA2 (emergency LED),
PA3 (LDR LED), PA5 (buzzer) and PA6 (ultrasonic trigger). -/
def outputPin (p : Nat) : Prop :=
  p = 2 ∨ p = 3 ∨ p = 5 ∨ p = 6

/-- Every pin write of the log `es` is to an output pin. -/
def writesOutputs (es : List Event) : Prop :=
  ∀ p, (Event.setPin p ∈ es ∨ Event.clearPin p ∈ es) → outputPin p

/-- State `s` comes from state `m` by steps that extend the log with writes to
output pins only and leave the other bits of the 32-bit output register as
they were. -/
def outputsOnly (m s : Machine) : Prop :=
  (∀ p, p < 32 → ¬ outputPin p → s.odr.testBit p = m.odr.testBit p) ∧
  ∃ added, s.trace = m.trace ++ added ∧ writesOutputs added

/-- States `a` and `b` differ at most in the value of the output register: the
busy-loop count, the load counters and the log are the same. -/
def sameControl (a b : Machine) : Prop :=
  a.nops = b.nops ∧ a.idrReads = b.idrReads ∧ a.srReads = b.srReads ∧ a.trace = b.trace

/-! ## Basic facts about the embedding -/

theorem forCount_nop (n : Nat) (m : Machine) :
    forCount n nop m = { m with nops := m.nops + n } := by
  induction n generalizing m with
  | zero => rfl
  | succ k ih =>
    rw [forCount, ih]
    simp only [nop]
    congr 1
    omega

theorem delay_us_eq (us : Nat) (m : Machine) :
    delay_us us m =
      { m with nops := m.nops + (us * 8) % 2 ^ 32,
               trace := m.trace ++ [Event.delay_us us] } := by
  rw [delay_us, forCount_nop]

theorem forCount_succ_last (n : Nat) (body : Machine → Machine) (m : Machine) :
    forCount (n + 1) body m = body (forCount n body m) := by
  induction n generalizing m with
  | zero => rfl
  | succ k ih =>
    rw [forCount, ih (body m)]
    rfl

theorem delay_ms_eq (ms : Nat) (m : Machine) :
    delay_ms ms m =
      { m with nops := m.nops + ms * 8000,
               trace := m.trace ++ List.replicate ms (Event.delay_us 1000) } := by
  unfold delay_ms
  induction ms with
  | zero => simp [forCount]
  | succ k ih =>
    rw [forCount_succ_last, ih, delay_us_eq]
    simp only [List.replicate_succ', List.append_assoc, Machine.mk.injEq, true_and]
    constructor
    · norm_num
      omega
    · trivial

theorem delay_ms_odr (ms : Nat) (m : Machine) : (delay_ms ms m).odr = m.odr := by
  rw [delay_ms_eq]

theorem delay_ms_idrReads (ms : Nat) (m : Machine) :
    (delay_ms ms m).idrReads = m.idrReads := by
  rw [delay_ms_eq]

theorem delay_ms_srReads (ms : Nat) (m : Machine) :
    (delay_ms ms m).srReads = m.srReads := by
  rw [delay_ms_eq]

theorem delay_ms_trace (ms : Nat) (m : Machine) :
    (delay_ms ms m).trace = m.trace ++ List.replicate ms (Event.delay_us 1000) := by
  rw [delay_ms_eq]

theorem forCount_trace (es : List Event) (body : Machine → Machine)
    (hbody : ∀ s, (body s).trace = s.trace ++ es) (n : Nat) (m : Machine) :
    (forCount n body m).trace = m.trace ++ (List.replicate n es).flatten := by
  induction n generalizing m with
  | zero => simp [forCount]
  | succ k ih =>
    rw [forCount, ih, hbody, List.replicate_succ, List.flatten_cons, List.append_assoc]

theorem buzzerCycle_eq (h : Nat) (m : Machine) :
    buzzerCycle h m =
      { m with odr := (m.odr ||| (1 <<< 5)) &&& (0xFFFFFFFF ^^^ (1 <<< 5)),
               nops := m.nops + (h * 8) % 2 ^ 32 + (h * 8) % 2 ^ 32,
               trace := m.trace ++ [Event.setPin 5, Event.delay_us h,
                                    Event.clearPin 5, Event.delay_us h] } := by
  simp [buzzerCycle, delay_us_eq, setBit, clearBit]

theorem Buzzer_Beep_trace (frequency duration_ms : Nat) (m : Machine)
    (hf : frequency ≠ 0) :
    (Buzzer_Beep frequency duration_ms m).trace =
      m.trace ++ (List.replicate (((frequency * duration_ms) % 2 ^ 32) / 1000)
        [Event.setPin 5, Event.delay_us (1000000 / frequency / 2),
         Event.clearPin 5, Event.delay_us (1000000 / frequency / 2)]).flatten := by
  unfold Buzzer_Beep
  rw [if_neg hf]
  exact forCount_trace _ _ (fun s => by rw [buzzerCycle_eq]) _ m

theorem echoWait_run (idr : Nat → Nat) (j : Nat) :
    ∀ (fuel : Nat) (m : Machine),
      (∀ i, i < j → idr (m.idrReads + i) &&& 2 = 0) →
      idr (m.idrReads + j) &&& 2 ≠ 0 →
      j < fuel →
      echoWait idr fuel m = some { m with idrReads := m.idrReads + j + 1 } := by
  induction j with
  | zero =>
    intro fuel m _ hfirst hfuel
    obtain ⟨f, rfl⟩ : ∃ f, fuel = f + 1 := ⟨fuel - 1, by omega⟩
    have h0 : ¬ (idr m.idrReads &&& (1 <<< 1) = 0) := by simpa using hfirst
    rw [echoWait, if_neg h0]
  | succ j ih =>
    intro fuel m hlow hfirst hfuel
    obtain ⟨f, rfl⟩ : ∃ f, fuel = f + 1 := ⟨fuel - 1, by omega⟩
    have h0 : idr m.idrReads &&& (1 <<< 1) = 0 := by simpa using hlow 0 (by omega)
    rw [echoWait, if_pos h0]
    rw [ih f { m with idrReads := m.idrReads + 1 }
      (fun i hi => by
        have := hlow (i + 1) (by omega)
        simpa [Nat.add_assoc, Nat.add_comm 1 i] using this)
      (by simpa [Nat.add_assoc, Nat.add_comm 1 j] using hfirst)
      (by omega)]
    simp only [Option.some.injEq, Machine.mk.injEq, true_and, and_true]
    omega

theorem pulseLoop_total (idr : Nat → Nat) :
    ∀ (fuel t : Nat) (m : Machine), t ≤ 30000 → 30001 ≤ t + fuel →
      ∃ time polls,
        pulseLoop idr fuel t m =
          some (time, { m with idrReads := m.idrReads + polls,
                               nops := m.nops + 8 * (time - t),
                               trace := m.trace ++
                                 List.replicate (time - t) (Event.delay_us 1) }) ∧
        t ≤ time ∧ time ≤ 30001 ∧
        (∀ i, i < time - t → idr (m.idrReads + i) &&& 2 ≠ 0) ∧
        ((polls = time - t + 1 ∧ idr (m.idrReads + (time - t)) &&& 2 = 0 ∧
            time ≤ 30000) ∨
         (polls = time - t ∧ time = 30001)) := by
  intro fuel
  induction fuel with
  | zero => intro t m ht hfuel; omega
  | succ f ih =>
    intro t m ht hfuel
    by_cases hhigh : idr m.idrReads &&& 2 = 0
    · refine ⟨t, 1, ?_, le_refl t, by omega, fun i hi => by omega, Or.inl ⟨by omega, by simpa using hhigh, ht⟩⟩
      have h0 : ¬ (idr m.idrReads &&& (1 <<< 1) ≠ 0) := by simpa using hhigh
      rw [pulseLoop, if_neg h0]
      simp
    · have h0 : idr m.idrReads &&& (1 <<< 1) ≠ 0 := by simpa using hhigh
      have hmod : (t + 1) % 2 ^ 32 = t + 1 := Nat.mod_eq_of_lt (by omega)
      by_cases hto : t + 1 > 30000
      · refine ⟨t + 1, 1, ?_, by omega, by omega, ?_, Or.inr ⟨by omega, by omega⟩⟩
        · rw [pulseLoop, if_pos h0]
          simp only [hmod, if_pos hto, delay_us_eq]
          simp
        · intro i hi
          have : i = 0 := by omega
          subst this
          simpa using hhigh
      · obtain ⟨time, polls, hrun, hle, hcap, hhi, hend⟩ :=
          ih (t + 1) (delay_us 1 { m with idrReads := m.idrReads + 1 }) (by omega) (by omega)
        simp only [delay_us_eq] at hrun hhi hend
        refine ⟨time, polls + 1, ?_, by omega, hcap, ?_, ?_⟩
        · rw [pulseLoop, if_pos h0]
          simp only [hmod, if_neg hto, delay_us_eq]
          rw [hrun]
          simp only [Option.some.injEq, Prod.mk.injEq, Machine.mk.injEq, true_and]
          refine ⟨by omega, by omega, ?_⟩
          have hsplit : time - t = (time - (t + 1)) + 1 := by omega
          rw [hsplit, List.replicate_succ, List.append_assoc]
          rfl
        · intro i hi
          rcases Nat.eq_zero_or_pos i with h | h
          · subst h; simpa using hhigh
          · have := hhi (i - 1) (by omega)
            have e : m.idrReads + 1 + (i - 1) = m.idrReads + i := by omega
            rwa [e] at this
        · have e : m.idrReads + 1 + (time - (t + 1)) = m.idrReads + (time - t) := by omega
          rcases hend with ⟨hp, hl, hlt⟩ | ⟨hp, ht⟩
          · exact Or.inl ⟨by omega, by rwa [e] at hl, hlt⟩
          · exact Or.inr ⟨by omega, ht⟩

theorem pulseLoop_run (idr : Nat → Nat) (k fuel : Nat) (m : Machine)
    (hhigh : ∀ i, i < k → idr (m.idrReads + i) &&& 2 ≠ 0)
    (hend : idr (m.idrReads + k) &&& 2 = 0)
    (hk : k ≤ 30000) (hfuel : 30001 ≤ fuel) :
    pulseLoop idr fuel 0 m =
      some (k, { m with idrReads := m.idrReads + (k + 1),
                        nops := m.nops + 8 * k,
                        trace := m.trace ++ List.replicate k (Event.delay_us 1) }) := by
  obtain ⟨time, polls, hrun, -, -, hhi, hcase⟩ :=
    pulseLoop_total idr fuel 0 m (by omega) (by omega)
  simp only [Nat.sub_zero] at hrun hhi hcase
  have h1 : ¬ k < time := fun hlt => hhi k hlt hend
  have h2 : ¬ time < k := by
    intro hlt
    rcases hcase with ⟨-, hl, -⟩ | ⟨-, ht⟩
    · exact hhigh time hlt hl
    · omega
  have htime : time = k := by omega
  subst htime
  have hpolls : polls = time + 1 := by
    rcases hcase with ⟨hp, -, -⟩ | ⟨-, ht⟩
    · exact hp
    · omega
  subst hpolls
  exact hrun

theorem pulseLoop_timeout (idr : Nat → Nat) (fuel : Nat) (m : Machine)
    (hhigh : ∀ i, i < 30001 → idr (m.idrReads + i) &&& 2 ≠ 0)
    (hfuel : 30001 ≤ fuel) :
    pulseLoop idr fuel 0 m =
      some (30001, { m with idrReads := m.idrReads + 30001,
                            nops := m.nops + 8 * 30001,
                            trace := m.trace ++ List.replicate 30001 (Event.delay_us 1) }) := by
  obtain ⟨time, polls, hrun, -, -, -, hcase⟩ :=
    pulseLoop_total idr fuel 0 m (by omega) (by omega)
  simp only [Nat.sub_zero] at hrun hcase
  rcases hcase with ⟨-, hl, hlt⟩ | ⟨hp, ht⟩
  · exact absurd hl (hhigh time (by omega))
  · subst ht
    subst hp
    exact hrun

theorem Ultrasonic_Send_Trigger_eq (m : Machine) :
    Ultrasonic_Send_Trigger m =
      { m with odr := (m.odr ||| (1 <<< 6)) &&& (0xFFFFFFFF ^^^ (1 <<< 6)),
               nops := m.nops + 80,
               trace := m.trace ++ [Event.setPin 6, Event.delay_us 10, Event.clearPin 6] } := by
  simp [Ultrasonic_Send_Trigger, delay_us_eq, setBit, clearBit]

theorem Ultrasonic_Get_Distance_run (idr : Nat → Nat) (m : Machine) (j fuel : Nat)
    (hlow : ∀ i, i < j → idr (m.idrReads + i) &&& 2 = 0)
    (hfirst : idr (m.idrReads + j) &&& 2 ≠ 0)
    (hj : j < fuel) (hfuel : 30001 ≤ fuel) :
    ∃ time polls,
      echoWait idr fuel (Ultrasonic_Send_Trigger m) = some (afterEchoWait m j) ∧
      pulseLoop idr fuel 0 (afterEchoWait m j) =
        some (time, afterPulse (afterEchoWait m j) time polls) ∧
      Ultrasonic_Get_Distance idr fuel m =
        some (time / 58, afterPulse (afterEchoWait m j) time polls) ∧
      time ≤ 30001 ∧
      (∀ i, i < time → idr (m.idrReads + j + 1 + i) &&& 2 ≠ 0) ∧
      ((polls = time + 1 ∧ idr (m.idrReads + j + 1 + time) &&& 2 = 0 ∧ time ≤ 30000) ∨
       (polls = time ∧ time = 30001)) := by
  have hwait : echoWait idr fuel (Ultrasonic_Send_Trigger m) = some (afterEchoWait m j) := by
    rw [echoWait_run idr j fuel (Ultrasonic_Send_Trigger m)
      (by simpa [Ultrasonic_Send_Trigger_eq] using hlow)
      (by simpa [Ultrasonic_Send_Trigger_eq] using hfirst) hj]
    simp [afterEchoWait, Ultrasonic_Send_Trigger_eq]
  obtain ⟨time, polls, hrun, -, hcap, hhi, hcase⟩ :=
    pulseLoop_total idr fuel 0 (afterEchoWait m j) (by omega) (by omega)
  have hreads : (afterEchoWait m j).idrReads = m.idrReads + j + 1 := rfl
  simp only [Nat.sub_zero, hreads] at hrun hhi hcase
  have hrun2 : pulseLoop idr fuel 0 (afterEchoWait m j) =
      some (time, afterPulse (afterEchoWait m j) time polls) := by
    rw [hrun]
    rfl
  refine ⟨time, polls, hwait, hrun2, ?_, hcap, hhi, hcase⟩
  simp only [Ultrasonic_Get_Distance, hwait, hrun2]

theorem echoWait_some (idr : Nat → Nat) :
    ∀ (fuel : Nat) (m m1 : Machine), echoWait idr fuel m = some m1 →
      ∃ n, m1 = { m with idrReads := m.idrReads + n + 1 } := by
  intro fuel
  induction fuel with
  | zero => intro m m1 h; simp [echoWait] at h
  | succ f ih =>
    intro m m1 h
    rw [echoWait] at h
    split at h
    · obtain ⟨n, hn⟩ := ih _ _ h
      refine ⟨n + 1, ?_⟩
      rw [hn]
      simp only [Machine.mk.injEq, true_and, and_true]
      omega
    · exact ⟨0, (Option.some.inj h).symm⟩

theorem adcWait_some (sr : Nat → Nat) :
    ∀ (fuel : Nat) (m m0 : Machine), adcWait sr fuel m = some m0 →
      ∃ n, m0 = { m with srReads := m.srReads + n + 1 } := by
  intro fuel
  induction fuel with
  | zero => intro m m0 h; simp [adcWait] at h
  | succ f ih =>
    intro m m0 h
    rw [adcWait] at h
    split at h
    · obtain ⟨n, hn⟩ := ih _ _ h
      refine ⟨n + 1, ?_⟩
      rw [hn]
      simp only [Machine.mk.injEq, true_and, and_true]
      omega
    · exact ⟨0, (Option.some.inj h).symm⟩

theorem adcWait_run (sr : Nat → Nat) (a : Nat) :
    ∀ (fuel : Nat) (m : Machine),
      (∀ i, i < a → sr (m.srReads + i) &&& 2 = 0) →
      sr (m.srReads + a) &&& 2 ≠ 0 →
      a < fuel →
      adcWait sr fuel m = some { m with srReads := m.srReads + a + 1 } := by
  induction a with
  | zero =>
    intro fuel m _ hfirst hfuel
    obtain ⟨f, rfl⟩ : ∃ f, fuel = f + 1 := ⟨fuel - 1, by omega⟩
    have h0 : ¬ (sr m.srReads &&& (1 <<< 1) = 0) := by simpa using hfirst
    rw [adcWait, if_neg h0]
  | succ a ih =>
    intro fuel m hlow hfirst hfuel
    obtain ⟨f, rfl⟩ : ∃ f, fuel = f + 1 := ⟨fuel - 1, by omega⟩
    have h0 : sr m.srReads &&& (1 <<< 1) = 0 := by simpa using hlow 0 (by omega)
    rw [adcWait, if_pos h0]
    rw [ih f { m with srReads := m.srReads + 1 }
      (fun i hi => by
        have := hlow (i + 1) (by omega)
        simpa [Nat.add_assoc, Nat.add_comm 1 i] using this)
      (by simpa [Nat.add_assoc, Nat.add_comm 1 a] using hfirst)
      (by omega)]
    simp only [Option.some.injEq, Machine.mk.injEq, true_and, and_true]
    omega

theorem pulseLoop_some (idr : Nat → Nat) :
    ∀ (fuel t : Nat) (m : Machine) (time : Nat) (m2 : Machine), t ≤ 30000 →
      pulseLoop idr fuel t m = some (time, m2) →
      ∃ polls, t ≤ time ∧ time ≤ 30001 ∧
        m2 = { m with idrReads := m.idrReads + polls,
                      nops := m.nops + 8 * (time - t),
                      trace := m.trace ++ List.replicate (time - t) (Event.delay_us 1) } := by
  intro fuel
  induction fuel with
  | zero => intro t m time m2 _ h; simp [pulseLoop] at h
  | succ f ih =>
    intro t m time m2 ht h
    have hmod : (t + 1) % 2 ^ 32 = t + 1 := Nat.mod_eq_of_lt (by omega)
    rw [pulseLoop] at h
    split at h
    · simp only [hmod, delay_us_eq] at h
      split at h
      · obtain ⟨h1, h2⟩ := Prod.mk.inj (Option.some.inj h)
        subst h1
        refine ⟨1, by omega, by omega, ?_⟩
        rw [← h2]
        simp
      · obtain ⟨polls, hle, hcap, hm2⟩ := ih _ _ _ _ (by omega) h
        refine ⟨polls + 1, by omega, hcap, ?_⟩
        rw [hm2]
        simp only [Machine.mk.injEq, true_and]
        refine ⟨by omega, by omega, ?_⟩
        have hsplit : time - t = (time - (t + 1)) + 1 := by omega
        rw [hsplit, List.replicate_succ, List.append_assoc]
        rfl
    · obtain ⟨h1, h2⟩ := Prod.mk.inj (Option.some.inj h)
      subst h1
      refine ⟨1, le_refl _, by omega, ?_⟩
      rw [← h2]
      simp

theorem Ultrasonic_Get_Distance_some (idr : Nat → Nat) (fuel : Nat) (m : Machine)
    (d : Nat) (m2 : Machine) (h : Ultrasonic_Get_Distance idr fuel m = some (d, m2)) :
    ∃ n time polls, d = time / 58 ∧ time ≤ 30001 ∧
      m2 = afterPulse (afterEchoWait m n) time polls := by
  unfold Ultrasonic_Get_Distance at h
  split at h
  · exact absurd h (by simp)
  · rename_i m1 hwait
    split at h
    · exact absurd h (by simp)
    · rename_i time m3 hloop
      obtain ⟨hd, hm⟩ := Prod.mk.inj (Option.some.inj h)
      obtain ⟨n, hn⟩ := echoWait_some idr fuel _ _ hwait
      obtain ⟨polls, -, hcap, hm3⟩ := pulseLoop_some idr fuel 0 m1 time m3 (by omega) hloop
      refine ⟨n, time, polls, hd.symm, hcap, ?_⟩
      rw [← hm, hm3, hn]
      simp [afterPulse, afterEchoWait, Ultrasonic_Send_Trigger_eq]

theorem testBit_set_other (x pin p : Nat) (h : p ≠ pin) :
    (x ||| (1 <<< pin)).testBit p = x.testBit p := by
  rw [Nat.testBit_lor, Nat.one_shiftLeft, Nat.testBit_two_pow]
  simp [Ne.symm h]

theorem testBit_clear_other (x pin p : Nat) (h : p ≠ pin) (hp : p < 32) :
    (x &&& (0xFFFFFFFF ^^^ (1 <<< pin))).testBit p = x.testBit p := by
  have hones : (0xFFFFFFFF : Nat) = 2 ^ 32 - 1 := by norm_num
  rw [Nat.testBit_land, Nat.testBit_xor, Nat.one_shiftLeft, Nat.testBit_two_pow, hones,
    Nat.testBit_two_pow_sub_one]
  simp [Ne.symm h, hp]

theorem testBit_clear_self (x pin : Nat) (hp : pin < 32) :
    (x &&& (0xFFFFFFFF ^^^ (1 <<< pin))).testBit pin = false := by
  have hones : (0xFFFFFFFF : Nat) = 2 ^ 32 - 1 := by norm_num
  rw [Nat.testBit_land, Nat.testBit_xor, Nat.one_shiftLeft, Nat.testBit_two_pow, hones,
    Nat.testBit_two_pow_sub_one]
  simp [hp]

theorem forCount_preserves (P : Machine → Prop) (body : Machine → Machine)
    (hbody : ∀ s, P s → P (body s)) (n : Nat) (m : Machine) (hm : P m) :
    P (forCount n body m) := by
  induction n generalizing m with
  | zero => exact hm
  | succ k ih => exact ih (body m) (hbody m hm)

theorem Buzzer_Beep_idrReads (frequency duration_ms : Nat) (m : Machine) :
    (Buzzer_Beep frequency duration_ms m).idrReads = m.idrReads := by
  unfold Buzzer_Beep
  split
  · rfl
  · exact forCount_preserves (fun s => s.idrReads = m.idrReads) _
      (fun s hs => by rw [buzzerCycle_eq]; exact hs) _ m rfl

theorem Buzzer_Beep_srReads (frequency duration_ms : Nat) (m : Machine) :
    (Buzzer_Beep frequency duration_ms m).srReads = m.srReads := by
  unfold Buzzer_Beep
  split
  · rfl
  · exact forCount_preserves (fun s => s.srReads = m.srReads) _
      (fun s hs => by rw [buzzerCycle_eq]; exact hs) _ m rfl

theorem Buzzer_Beep_2000_200_trace (m : Machine) :
    (Buzzer_Beep 2000 200 m).trace =
      m.trace ++ (List.replicate 400
        [Event.setPin 5, Event.delay_us 250, Event.clearPin 5, Event.delay_us 250]).flatten :=
  Buzzer_Beep_trace 2000 200 m (by decide)

theorem afterPulse_idrReads (m1 : Machine) (time polls : Nat) :
    (afterPulse m1 time polls).idrReads = m1.idrReads + polls := rfl

theorem afterEchoWait_idrReads (m : Machine) (j : Nat) :
    (afterEchoWait m j).idrReads = m.idrReads + j + 1 := rfl

theorem Ultrasonic_Get_Distance_exact (idr : Nat → Nat) (m : Machine) (j k fuel : Nat)
    (hlow : ∀ i, i < j → idr (m.idrReads + i) &&& 2 = 0)
    (hfirst : idr (m.idrReads + j) &&& 2 ≠ 0)
    (hhigh : ∀ i, i < k → idr (m.idrReads + j + 1 + i) &&& 2 ≠ 0)
    (hend : idr (m.idrReads + j + 1 + k) &&& 2 = 0)
    (hk : k ≤ 30000) (hj : j < fuel) (hfuel : 30001 ≤ fuel) :
    Ultrasonic_Get_Distance idr fuel m =
      some (k / 58, afterPulse (afterEchoWait m j) k (k + 1)) := by
  obtain ⟨time, polls, hwait, -, -, -, -, -⟩ :=
    Ultrasonic_Get_Distance_run idr m j fuel hlow hfirst hj hfuel
  have hrun := pulseLoop_run idr k fuel (afterEchoWait m j) hhigh hend hk hfuel
  simp only [Ultrasonic_Get_Distance, hwait, hrun]
  rfl

theorem Ultrasonic_Get_Distance_timeout (idr : Nat → Nat) (m : Machine) (j fuel : Nat)
    (hlow : ∀ i, i < j → idr (m.idrReads + i) &&& 2 = 0)
    (hfirst : idr (m.idrReads + j) &&& 2 ≠ 0)
    (hhigh : ∀ i, i < 30001 → idr (m.idrReads + j + 1 + i) &&& 2 ≠ 0)
    (hj : j < fuel) (hfuel : 30001 ≤ fuel) :
    Ultrasonic_Get_Distance idr fuel m =
      some (30001 / 58, afterPulse (afterEchoWait m j) 30001 30001) := by
  obtain ⟨time, polls, hwait, -, -, -, -, -⟩ :=
    Ultrasonic_Get_Distance_run idr m j fuel hlow hfirst hj hfuel
  have hrun := pulseLoop_timeout idr fuel (afterEchoWait m j) hhigh hfuel
  simp only [Ultrasonic_Get_Distance, hwait, hrun]
  rfl

theorem echoFor30044_high (n : Nat) (h : n ≤ 30044) : echoFor30044 n &&& 2 ≠ 0 := by
  have e : echoFor30044 n = 2 := by
    simp only [echoFor30044]
    rw [if_pos h]
  rw [e]
  decide

theorem echoFor30044_low (n : Nat) (h : 30044 < n) : echoFor30044 n &&& 2 = 0 := by
  have e : echoFor30044 n = 0 := by
    simp only [echoFor30044]
    rw [if_neg (by omega)]
  rw [e]
  decide

theorem lightModule_dark (sample : Nat) (m : Machine) (h1 : 100 < sample)
    (h2 : sample < 2 ^ 31) :
    lightModule sample m = delay_ms 100 (clearBit 3 (delay_ms 100 (setBit 3 m))) := by
  have hint : toInt32 sample = (sample : Int) := by
    unfold toInt32
    have hmod : sample % 2 ^ 32 = sample := Nat.mod_eq_of_lt (by omega)
    rw [hmod, if_pos (by omega)]
  unfold lightModule
  simp only [hint, LDR_THRESHOLD]
  rw [if_pos (by omega)]

theorem lightModule_dark_trace (sample : Nat) (m : Machine) (h1 : 100 < sample)
    (h2 : sample < 2 ^ 31) :
    (lightModule sample m).trace =
      m.trace ++ [Event.setPin 3] ++ List.replicate 100 (Event.delay_us 1000)
        ++ [Event.clearPin 3] ++ List.replicate 100 (Event.delay_us 1000) := by
  rw [lightModule_dark sample m h1 h2]
  simp only [delay_ms_eq, clearBit, setBit]

theorem lightModule_dark_idrReads (sample : Nat) (m : Machine) (h1 : 100 < sample)
    (h2 : sample < 2 ^ 31) :
    (lightModule sample m).idrReads = m.idrReads := by
  rw [lightModule_dark sample m h1 h2]
  simp only [delay_ms_eq, clearBit, setBit]

theorem obstacleAlert_outside (d : Nat) (m : Machine) (hd : d ≠ 3 ∧ d ≠ 4) :
    obstacleAlert d m = delay_ms 100 (Buzzer_Beep 2000 200 m) := by
  unfold obstacleAlert
  rw [if_pos (by omega)]

theorem buttonModule_released (idr : Nat → Nat) (m : Machine)
    (hb : idr m.idrReads &&& 1 ≠ 0) :
    buttonModule idr m = clearBit 2 { m with idrReads := m.idrReads + 1 } := by
  unfold buttonModule
  simp only [Nat.shiftLeft_zero]
  rw [if_neg hb]

theorem requestedDelay_append (xs ys : List Event) :
    requestedDelay (xs ++ ys) = requestedDelay xs + requestedDelay ys := by
  simp [requestedDelay]

theorem requestedDelay_cycles (n h : Nat) :
    requestedDelay (List.replicate n
      [Event.setPin 5, Event.delay_us h, Event.clearPin 5, Event.delay_us h]).flatten =
      n * 2 * h := by
  induction n with
  | zero => simp [requestedDelay]
  | succ k ih =>
    rw [List.replicate_succ, List.flatten_cons, requestedDelay_append, ih]
    simp only [requestedDelay, List.map_cons, List.map_nil, List.sum_cons, List.sum_nil,
      Event.requested]
    ring

theorem cycles_mul_period_le (frequency duration_ms : Nat) (hf : 0 < frequency) :
    ((frequency * duration_ms) % 2 ^ 32 / 1000) * 2 * (1000000 / frequency / 2) ≤
      1000 * duration_ms := by
  have hc : (frequency * duration_ms) % 2 ^ 32 / 1000 * 1000 ≤ frequency * duration_ms :=
    le_trans (Nat.div_mul_le_self _ _) (Nat.mod_le _ _)
  have hh : 2 * (1000000 / frequency / 2) ≤ 1000000 / frequency := by omega
  have hp : frequency * (1000000 / frequency) ≤ 1000000 := Nat.mul_div_le _ _
  apply Nat.le_of_mul_le_mul_left _ hf
  generalize (frequency * duration_ms) % 2 ^ 32 / 1000 = c at hc
  generalize 1000000 / frequency = q at hh hp
  generalize q / 2 = h at hh
  calc frequency * (c * 2 * h) = c * (frequency * (2 * h)) := by ring
    _ ≤ c * (frequency * q) := Nat.mul_le_mul_left _ (Nat.mul_le_mul_left _ hh)
    _ ≤ c * 1000000 := Nat.mul_le_mul_left _ hp
    _ = 1000 * (c * 1000) := by ring
    _ ≤ 1000 * (frequency * duration_ms) := Nat.mul_le_mul_left _ hc
    _ = frequency * (1000 * duration_ms) := by ring

theorem writesOutputs_nil : writesOutputs [] := by
  intro p h
  simp at h

theorem writesOutputs_append (xs ys : List Event) (hx : writesOutputs xs)
    (hy : writesOutputs ys) : writesOutputs (xs ++ ys) := by
  intro p h
  simp only [List.mem_append] at h
  rcases h with (h | h) | (h | h)
  · exact hx p (Or.inl h)
  · exact hy p (Or.inl h)
  · exact hx p (Or.inr h)
  · exact hy p (Or.inr h)

theorem writesOutputs_set (pin : Nat) (h : outputPin pin) :
    writesOutputs [Event.setPin pin] := by
  intro p hp
  simp at hp
  rw [hp]
  exact h

theorem writesOutputs_clear (pin : Nat) (h : outputPin pin) :
    writesOutputs [Event.clearPin pin] := by
  intro p hp
  simp at hp
  rw [hp]
  exact h

theorem writesOutputs_delay (us : Nat) : writesOutputs [Event.delay_us us] := by
  intro p hp
  simp at hp

theorem outputsOnly_refl (m : Machine) : outputsOnly m m :=
  ⟨fun _ _ _ => rfl, [], by simp, writesOutputs_nil⟩

theorem outputsOnly_trans (a b c : Machine) (hab : outputsOnly a b)
    (hbc : outputsOnly b c) : outputsOnly a c := by
  obtain ⟨h1, xs, hxs, gx⟩ := hab
  obtain ⟨h2, ys, hys, gy⟩ := hbc
  refine ⟨fun p hp hn => (h2 p hp hn).trans (h1 p hp hn), xs ++ ys, ?_,
    writesOutputs_append xs ys gx gy⟩
  rw [hys, hxs, List.append_assoc]

theorem outputsOnly_setBit (pin : Nat) (h : outputPin pin) (m : Machine) :
    outputsOnly m (setBit pin m) := by
  refine ⟨fun p _ hn => ?_, [Event.setPin pin], rfl, writesOutputs_set pin h⟩
  exact testBit_set_other m.odr pin p (fun e => hn (e ▸ h))

theorem outputsOnly_clearBit (pin : Nat) (h : outputPin pin) (m : Machine) :
    outputsOnly m (clearBit pin m) := by
  refine ⟨fun p hp hn => ?_, [Event.clearPin pin], rfl, writesOutputs_clear pin h⟩
  exact testBit_clear_other m.odr pin p (fun e => hn (e ▸ h)) hp

theorem outputsOnly_delay_us (us : Nat) (m : Machine) : outputsOnly m (delay_us us m) := by
  rw [delay_us_eq]
  exact ⟨fun _ _ _ => rfl, [Event.delay_us us], rfl, writesOutputs_delay us⟩

theorem outputsOnly_forCount (body : Machine → Machine)
    (hbody : ∀ s, outputsOnly s (body s)) (n : Nat) (m : Machine) :
    outputsOnly m (forCount n body m) :=
  forCount_preserves (fun s => outputsOnly m s) body
    (fun s hs => outputsOnly_trans m s (body s) hs (hbody s)) n m (outputsOnly_refl m)

theorem outputsOnly_delay_ms (ms : Nat) (m : Machine) : outputsOnly m (delay_ms ms m) :=
  outputsOnly_forCount _ (outputsOnly_delay_us 1000) ms m

theorem outputPin_2 : outputPin 2 := Or.inl rfl

theorem outputPin_3 : outputPin 3 := Or.inr (Or.inl rfl)

theorem outputPin_5 : outputPin 5 := Or.inr (Or.inr (Or.inl rfl))

theorem outputPin_6 : outputPin 6 := Or.inr (Or.inr (Or.inr rfl))

theorem outputsOnly_buzzerCycle (h : Nat) (m : Machine) :
    outputsOnly m (buzzerCycle h m) := by
  unfold buzzerCycle
  exact outputsOnly_trans _ _ _ (outputsOnly_setBit 5 outputPin_5 m)
    (outputsOnly_trans _ _ _ (outputsOnly_delay_us h _)
      (outputsOnly_trans _ _ _ (outputsOnly_clearBit 5 outputPin_5 _)
        (outputsOnly_delay_us h _)))

theorem outputsOnly_Buzzer_Beep (frequency duration_ms : Nat) (m : Machine) :
    outputsOnly m (Buzzer_Beep frequency duration_ms m) := by
  unfold Buzzer_Beep
  split
  · exact outputsOnly_refl m
  · exact outputsOnly_forCount _ (outputsOnly_buzzerCycle _) _ m

theorem outputsOnly_Ultrasonic_Send_Trigger (m : Machine) :
    outputsOnly m (Ultrasonic_Send_Trigger m) := by
  unfold Ultrasonic_Send_Trigger
  exact outputsOnly_trans _ _ _ (outputsOnly_setBit 6 outputPin_6 m)
    (outputsOnly_trans _ _ _ (outputsOnly_delay_us 10 _) (outputsOnly_clearBit 6 outputPin_6 _))

theorem outputsOnly_lightModule (sample : Nat) (m : Machine) :
    outputsOnly m (lightModule sample m) := by
  unfold lightModule
  simp only []
  split
  · exact outputsOnly_trans _ _ _ (outputsOnly_setBit 3 outputPin_3 m)
      (outputsOnly_trans _ _ _ (outputsOnly_delay_ms 100 _)
        (outputsOnly_trans _ _ _ (outputsOnly_clearBit 3 outputPin_3 _)
          (outputsOnly_delay_ms 100 _)))
  · exact outputsOnly_clearBit 3 outputPin_3 m

theorem outputsOnly_obstacleAlert (d : Nat) (m : Machine) :
    outputsOnly m (obstacleAlert d m) := by
  unfold obstacleAlert
  split
  · exact outputsOnly_trans _ _ _ (outputsOnly_Buzzer_Beep 2000 200 m)
      (outputsOnly_delay_ms 100 _)
  · exact outputsOnly_refl m

theorem outputsOnly_of_eq (m s : Machine) (hodr : s.odr = m.odr)
    (htrace : s.trace = m.trace) : outputsOnly m s :=
  ⟨fun _ _ _ => by rw [hodr], [], by rw [htrace, List.append_nil], writesOutputs_nil⟩

theorem outputsOnly_buttonModule (idr : Nat → Nat) (m : Machine) :
    outputsOnly m (buttonModule idr m) := by
  have h0 : outputsOnly m { m with idrReads := m.idrReads + 1 } :=
    outputsOnly_of_eq _ _ rfl rfl
  unfold buttonModule
  simp only []
  split
  · exact outputsOnly_trans _ _ _ h0
      (outputsOnly_trans _ _ _ (outputsOnly_setBit 2 outputPin_2 _)
        (outputsOnly_trans _ _ _ (outputsOnly_Buzzer_Beep 2800 100 _)
          (outputsOnly_delay_ms 100 _)))
  · exact outputsOnly_trans _ _ _ h0 (outputsOnly_clearBit 2 outputPin_2 _)

theorem loopPass_some (sr idr : Nat → Nat) (sample fuel : Nat) (m final : Machine)
    (h : loopPass sr idr sample fuel m = some final) :
    ∃ m0 d m2, adcWait sr fuel m = some m0 ∧
      Ultrasonic_Get_Distance idr fuel (lightModule sample m0) = some (d, m2) ∧
      final = delay_ms 10 (buttonModule idr (obstacleAlert d m2)) := by
  unfold loopPass at h
  split at h
  · exact absurd h (by simp)
  · rename_i m0 hadc
    split at h
    · exact absurd h (by simp)
    · rename_i d m2 hdist
      exact ⟨m0, d, m2, hadc, hdist, (Option.some.inj h).symm⟩

theorem outputsOnly_Ultrasonic_Get_Distance (idr : Nat → Nat) (fuel : Nat) (m : Machine)
    (d : Nat) (m2 : Machine) (h : Ultrasonic_Get_Distance idr fuel m = some (d, m2)) :
    outputsOnly m m2 := by
  obtain ⟨n, time, polls, -, -, hm2⟩ := Ultrasonic_Get_Distance_some idr fuel m d m2 h
  refine outputsOnly_trans _ _ _ (outputsOnly_Ultrasonic_Send_Trigger m) ?_
  rw [hm2]
  refine ⟨fun _ _ _ => rfl, List.replicate time (Event.delay_us 1), rfl, ?_⟩
  intro p hp
  simp only [List.mem_replicate] at hp
  rcases hp with ⟨-, hp⟩ | ⟨-, hp⟩ <;> exact Event.noConfusion hp

theorem outputsOnly_loopPass (sr idr : Nat → Nat) (sample fuel : Nat) (m final : Machine)
    (h : loopPass sr idr sample fuel m = some final) : outputsOnly m final := by
  obtain ⟨m0, d, m2, hadc, hdist, hfinal⟩ := loopPass_some sr idr sample fuel m final h
  obtain ⟨a, ha⟩ := adcWait_some sr fuel m m0 hadc
  rw [hfinal]
  have h0 : outputsOnly m m0 := outputsOnly_of_eq _ _ (by rw [ha]) (by rw [ha])
  exact outputsOnly_trans _ _ _ h0
    (outputsOnly_trans _ _ _ (outputsOnly_lightModule sample m0)
      (outputsOnly_trans _ _ _ (outputsOnly_Ultrasonic_Get_Distance idr fuel _ d m2 hdist)
        (outputsOnly_trans _ _ _ (outputsOnly_obstacleAlert d m2)
          (outputsOnly_trans _ _ _ (outputsOnly_buttonModule idr _)
            (outputsOnly_delay_ms 10 _)))))

theorem and_shift_congr (x y i : Nat) (h : x.testBit i = y.testBit i) :
    x &&& (1 <<< i) = y &&& (1 <<< i) := by
  rw [Nat.one_shiftLeft, Nat.and_two_pow, Nat.and_two_pow, h]

theorem echoWait_congr (idr idr2 : Nat → Nat)
    (h : ∀ n, idr2 n &&& (1 <<< 1) = idr n &&& (1 <<< 1)) :
    ∀ (fuel : Nat) (m : Machine), echoWait idr2 fuel m = echoWait idr fuel m := by
  intro fuel
  induction fuel with
  | zero => intro m; rfl
  | succ f ih =>
    intro m
    rw [echoWait, echoWait, h, ih]

theorem pulseLoop_congr (idr idr2 : Nat → Nat)
    (h : ∀ n, idr2 n &&& (1 <<< 1) = idr n &&& (1 <<< 1)) :
    ∀ (fuel time : Nat) (m : Machine),
      pulseLoop idr2 fuel time m = pulseLoop idr fuel time m := by
  intro fuel
  induction fuel with
  | zero => intro time m; rfl
  | succ f ih =>
    intro time m
    rw [pulseLoop, pulseLoop, h]
    simp only [ih]

theorem Ultrasonic_Get_Distance_congr (idr idr2 : Nat → Nat)
    (h : ∀ n, idr2 n &&& (1 <<< 1) = idr n &&& (1 <<< 1)) (fuel : Nat) (m : Machine) :
    Ultrasonic_Get_Distance idr2 fuel m = Ultrasonic_Get_Distance idr fuel m := by
  unfold Ultrasonic_Get_Distance
  rw [echoWait_congr idr idr2 h]
  cases echoWait idr fuel (Ultrasonic_Send_Trigger m) with
  | none => rfl
  | some m1 => simp only [pulseLoop_congr idr idr2 h]

theorem buttonModule_congr (idr idr2 : Nat → Nat)
    (h : ∀ n, idr2 n &&& (1 <<< 0) = idr n &&& (1 <<< 0)) (m : Machine) :
    buttonModule idr2 m = buttonModule idr m := by
  unfold buttonModule
  simp only [h]

theorem loopPass_congr (sr idr idr2 : Nat → Nat)
    (h : ∀ n, (idr2 n).testBit 0 = (idr n).testBit 0 ∧
      (idr2 n).testBit 1 = (idr n).testBit 1)
    (sample fuel : Nat) (m : Machine) :
    loopPass sr idr2 sample fuel m = loopPass sr idr sample fuel m := by
  have h0 : ∀ n, idr2 n &&& (1 <<< 0) = idr n &&& (1 <<< 0) :=
    fun n => and_shift_congr _ _ 0 (h n).1
  have h1 : ∀ n, idr2 n &&& (1 <<< 1) = idr n &&& (1 <<< 1) :=
    fun n => and_shift_congr _ _ 1 (h n).2
  unfold loopPass
  cases adcWait sr fuel m with
  | none => rfl
  | some m0 =>
    simp only [Ultrasonic_Get_Distance_congr idr idr2 h1, buttonModule_congr idr idr2 h0]

theorem sameControl_setBit (pin : Nat) (a b : Machine) (h : sameControl a b) :
    sameControl (setBit pin a) (setBit pin b) := by
  obtain ⟨h1, h2, h3, h4⟩ := h
  exact ⟨h1, h2, h3, by simp only [setBit, h4]⟩

theorem sameControl_clearBit (pin : Nat) (a b : Machine) (h : sameControl a b) :
    sameControl (clearBit pin a) (clearBit pin b) := by
  obtain ⟨h1, h2, h3, h4⟩ := h
  exact ⟨h1, h2, h3, by simp only [clearBit, h4]⟩

theorem sameControl_delay_us (us : Nat) (a b : Machine) (h : sameControl a b) :
    sameControl (delay_us us a) (delay_us us b) := by
  obtain ⟨h1, h2, h3, h4⟩ := h
  rw [delay_us_eq, delay_us_eq]
  exact ⟨by simp only [h1], h2, h3, by simp only [h4]⟩

theorem sameControl_forCount (body : Machine → Machine)
    (hbody : ∀ a b, sameControl a b → sameControl (body a) (body b)) (n : Nat) :
    ∀ a b, sameControl a b → sameControl (forCount n body a) (forCount n body b) := by
  induction n with
  | zero => intro a b h; exact h
  | succ k ih => intro a b h; exact ih _ _ (hbody a b h)

theorem sameControl_delay_ms (ms : Nat) (a b : Machine) (h : sameControl a b) :
    sameControl (delay_ms ms a) (delay_ms ms b) :=
  sameControl_forCount _ (sameControl_delay_us 1000) ms a b h

theorem sameControl_buzzerCycle (hp : Nat) (a b : Machine) (h : sameControl a b) :
    sameControl (buzzerCycle hp a) (buzzerCycle hp b) := by
  unfold buzzerCycle
  exact sameControl_delay_us _ _ _ (sameControl_clearBit _ _ _
    (sameControl_delay_us _ _ _ (sameControl_setBit _ _ _ h)))

theorem sameControl_Buzzer_Beep (frequency duration_ms : Nat) (a b : Machine)
    (h : sameControl a b) :
    sameControl (Buzzer_Beep frequency duration_ms a) (Buzzer_Beep frequency duration_ms b) := by
  unfold Buzzer_Beep
  by_cases hf : frequency = 0
  · rw [if_pos hf, if_pos hf]
    exact h
  · rw [if_neg hf, if_neg hf]
    exact sameControl_forCount _ (sameControl_buzzerCycle _) _ a b h

theorem sameControl_Ultrasonic_Send_Trigger (a b : Machine) (h : sameControl a b) :
    sameControl (Ultrasonic_Send_Trigger a) (Ultrasonic_Send_Trigger b) := by
  unfold Ultrasonic_Send_Trigger
  exact sameControl_clearBit _ _ _ (sameControl_delay_us _ _ _ (sameControl_setBit _ _ _ h))

theorem sameControl_lightModule (sample : Nat) (a b : Machine) (h : sameControl a b) :
    sameControl (lightModule sample a) (lightModule sample b) := by
  unfold lightModule
  simp only []
  by_cases hs : toInt32 sample > LDR_THRESHOLD
  · rw [if_pos hs, if_pos hs]
    exact sameControl_delay_ms _ _ _ (sameControl_clearBit _ _ _
      (sameControl_delay_ms _ _ _ (sameControl_setBit _ _ _ h)))
  · rw [if_neg hs, if_neg hs]
    exact sameControl_clearBit _ _ _ h

theorem sameControl_obstacleAlert (d : Nat) (a b : Machine) (h : sameControl a b) :
    sameControl (obstacleAlert d a) (obstacleAlert d b) := by
  unfold obstacleAlert
  by_cases hd : ¬ (d < 5 ∧ d > 2)
  · rw [if_pos hd, if_pos hd]
    exact sameControl_delay_ms _ _ _ (sameControl_Buzzer_Beep _ _ _ _ h)
  · rw [if_neg hd, if_neg hd]
    exact h

theorem sameControl_buttonModule (idr : Nat → Nat) (a b : Machine) (h : sameControl a b) :
    sameControl (buttonModule idr a) (buttonModule idr b) := by
  have h0 : sameControl { a with idrReads := a.idrReads + 1 }
      { b with idrReads := b.idrReads + 1 } :=
    ⟨h.1, by simp only [h.2.1], h.2.2.1, h.2.2.2⟩
  unfold buttonModule
  simp only []
  rw [show idr a.idrReads = idr b.idrReads by rw [h.2.1]]
  by_cases hc : idr b.idrReads &&& (1 <<< 0) = 0
  · rw [if_pos hc, if_pos hc]
    exact sameControl_delay_ms _ _ _ (sameControl_Buzzer_Beep _ _ _ _
      (sameControl_setBit _ _ _ h0))
  · rw [if_neg hc, if_neg hc]
    exact sameControl_clearBit _ _ _ h0

theorem sameControl_adcWait (sr : Nat → Nat) :
    ∀ (fuel : Nat) (a b : Machine) (a2 : Machine), sameControl a b →
      adcWait sr fuel a = some a2 →
      ∃ b2, adcWait sr fuel b = some b2 ∧ sameControl a2 b2 := by
  intro fuel
  induction fuel with
  | zero => intro a b a2 _ h; simp [adcWait] at h
  | succ f ih =>
    intro a b a2 hab h
    have h0 : sameControl { a with srReads := a.srReads + 1 }
        { b with srReads := b.srReads + 1 } :=
      ⟨hab.1, hab.2.1, by simp only [hab.2.2.1], hab.2.2.2⟩
    rw [adcWait] at h ⊢
    rw [show sr a.srReads = sr b.srReads by rw [hab.2.2.1]] at h
    by_cases hc : sr b.srReads &&& (1 <<< 1) = 0
    · rw [if_pos hc] at h ⊢
      exact ih _ _ a2 h0 h
    · rw [if_neg hc] at h ⊢
      exact ⟨_, rfl, (Option.some.inj h) ▸ h0⟩

theorem sameControl_echoWait (idr : Nat → Nat) :
    ∀ (fuel : Nat) (a b : Machine) (a2 : Machine), sameControl a b →
      echoWait idr fuel a = some a2 →
      ∃ b2, echoWait idr fuel b = some b2 ∧ sameControl a2 b2 := by
  intro fuel
  induction fuel with
  | zero => intro a b a2 _ h; simp [echoWait] at h
  | succ f ih =>
    intro a b a2 hab h
    have h0 : sameControl { a with idrReads := a.idrReads + 1 }
        { b with idrReads := b.idrReads + 1 } :=
      ⟨hab.1, by simp only [hab.2.1], hab.2.2.1, hab.2.2.2⟩
    rw [echoWait] at h ⊢
    rw [show idr a.idrReads = idr b.idrReads by rw [hab.2.1]] at h
    by_cases hc : idr b.idrReads &&& (1 <<< 1) = 0
    · rw [if_pos hc] at h ⊢
      exact ih _ _ a2 h0 h
    · rw [if_neg hc] at h ⊢
      exact ⟨_, rfl, (Option.some.inj h) ▸ h0⟩

theorem sameControl_pulseLoop (idr : Nat → Nat) :
    ∀ (fuel time : Nat) (a b : Machine) (t2 : Nat) (a2 : Machine), sameControl a b →
      pulseLoop idr fuel time a = some (t2, a2) →
      ∃ b2, pulseLoop idr fuel time b = some (t2, b2) ∧ sameControl a2 b2 := by
  intro fuel
  induction fuel with
  | zero => intro time a b t2 a2 _ h; simp [pulseLoop] at h
  | succ f ih =>
    intro time a b t2 a2 hab h
    have h0 : sameControl { a with idrReads := a.idrReads + 1 }
        { b with idrReads := b.idrReads + 1 } :=
      ⟨hab.1, by simp only [hab.2.1], hab.2.2.1, hab.2.2.2⟩
    have h1 := sameControl_delay_us 1 _ _ h0
    rw [pulseLoop] at h ⊢
    rw [show idr a.idrReads = idr b.idrReads by rw [hab.2.1]] at h
    by_cases hc : idr b.idrReads &&& (1 <<< 1) ≠ 0
    · rw [if_pos hc] at h ⊢
      simp only [] at h ⊢
      by_cases hto : (time + 1) % 2 ^ 32 > 30000
      · rw [if_pos hto] at h ⊢
        obtain ⟨ht, ha⟩ := Prod.mk.inj (Option.some.inj h)
        exact ⟨_, by rw [ht], ha ▸ h1⟩
      · rw [if_neg hto] at h ⊢
        exact ih _ _ _ t2 a2 h1 h
    · rw [if_neg hc] at h ⊢
      obtain ⟨ht, ha⟩ := Prod.mk.inj (Option.some.inj h)
      exact ⟨_, by rw [ht], ha ▸ h0⟩

theorem testBit_clear_low (x mask p : Nat) (h : x.testBit p = false) :
    (x &&& mask).testBit p = false := by
  rw [Nat.testBit_land, h]
  rfl

theorem low_setBit (pin p : Nat) (hne : p ≠ pin) (m : Machine)
    (h : m.odr.testBit p = false) : (setBit pin m).odr.testBit p = false :=
  (testBit_set_other m.odr pin p hne).trans h

theorem low_clearBit (pin p : Nat) (m : Machine)
    (h : m.odr.testBit p = false ∨ (p = pin ∧ pin < 32)) :
    (clearBit pin m).odr.testBit p = false := by
  rcases h with h | ⟨rfl, hp⟩
  · exact testBit_clear_low _ _ p h
  · exact testBit_clear_self m.odr p hp

theorem low_delay_us (us p : Nat) (m : Machine) (h : m.odr.testBit p = false) :
    (delay_us us m).odr.testBit p = false := by
  rw [delay_us_eq]
  exact h

theorem low_delay_ms (ms p : Nat) (m : Machine) (h : m.odr.testBit p = false) :
    (delay_ms ms m).odr.testBit p = false := by
  rw [delay_ms_odr]
  exact h

theorem low_buzzerCycle (hp p : Nat) (m : Machine)
    (h : m.odr.testBit p = false) : (buzzerCycle hp m).odr.testBit p = false := by
  unfold buzzerCycle
  apply low_delay_us
  apply low_clearBit
  by_cases h5 : p = 5
  · exact Or.inr ⟨h5, by decide⟩
  · exact Or.inl (low_delay_us _ _ _ (low_setBit 5 p h5 m h))

theorem low_Buzzer_Beep (frequency duration_ms p : Nat) (m : Machine)
    (h : m.odr.testBit p = false) :
    (Buzzer_Beep frequency duration_ms m).odr.testBit p = false := by
  unfold Buzzer_Beep
  split
  · exact h
  · exact forCount_preserves (fun s => s.odr.testBit p = false) _
      (fun s hs => low_buzzerCycle _ p s hs) _ m h

theorem low_Ultrasonic_Send_Trigger (p : Nat) (m : Machine)
    (h : m.odr.testBit p = false ∨ p = 6) :
    (Ultrasonic_Send_Trigger m).odr.testBit p = false := by
  unfold Ultrasonic_Send_Trigger
  apply low_clearBit
  rcases h with h | h6
  · by_cases h6 : p = 6
    · exact Or.inr ⟨h6, by decide⟩
    · exact Or.inl (low_delay_us _ _ _ (low_setBit 6 p h6 m h))
  · exact Or.inr ⟨h6, by decide⟩

theorem low_lightModule (sample p : Nat) (m : Machine)
    (h : m.odr.testBit p = false ∨ p = 3) :
    (lightModule sample m).odr.testBit p = false := by
  unfold lightModule
  simp only []
  split
  · apply low_delay_ms
    apply low_clearBit
    rcases h with h | h3
    · by_cases h3 : p = 3
      · exact Or.inr ⟨h3, by decide⟩
      · exact Or.inl (low_delay_ms _ _ _ (low_setBit 3 p h3 m h))
    · exact Or.inr ⟨h3, by decide⟩
  · apply low_clearBit
    rcases h with h | h3
    · exact Or.inl h
    · exact Or.inr ⟨h3, by decide⟩

theorem low_obstacleAlert (d p : Nat) (m : Machine)
    (h : m.odr.testBit p = false) : (obstacleAlert d m).odr.testBit p = false := by
  unfold obstacleAlert
  split
  · exact low_delay_ms _ _ _ (low_Buzzer_Beep _ _ p m h)
  · exact h

theorem low_buttonModule (idr : Nat → Nat) (p : Nat) (hne : p ≠ 2)
    (m : Machine) (h : m.odr.testBit p = false) :
    (buttonModule idr m).odr.testBit p = false := by
  unfold buttonModule
  simp only []
  split
  · exact low_delay_ms _ _ _ (low_Buzzer_Beep _ _ p _ (low_setBit 2 p hne _ h))
  · exact low_clearBit 2 p _ (Or.inl h)

theorem low_Ultrasonic_Get_Distance (idr : Nat → Nat) (fuel p : Nat) (m : Machine)
    (d : Nat) (m2 : Machine) (hret : Ultrasonic_Get_Distance idr fuel m = some (d, m2))
    (h : m.odr.testBit p = false ∨ p = 6) : m2.odr.testBit p = false := by
  obtain ⟨n, time, polls, -, -, hm2⟩ := Ultrasonic_Get_Distance_some idr fuel m d m2 hret
  have hodr : m2.odr = (Ultrasonic_Send_Trigger m).odr := by rw [hm2]; rfl
  rw [hodr]
  exact low_Ultrasonic_Send_Trigger p m h

theorem low_loopPass (sr idr : Nat → Nat) (sample fuel p : Nat) (m final : Machine)
    (hpass : loopPass sr idr sample fuel m = some final) (hne : p ≠ 2)
    (h : m.odr.testBit p = false ∨ p = 3 ∨ p = 6) : final.odr.testBit p = false := by
  obtain ⟨m0, d, m2, hadc, hdist, hfinal⟩ := loopPass_some sr idr sample fuel m final hpass
  obtain ⟨a, ha⟩ := adcWait_some sr fuel m m0 hadc
  have h0 : m0.odr = m.odr := by rw [ha]
  have h1 : (lightModule sample m0).odr.testBit p = false ∨ p = 6 := by
    rcases h with h | h3 | h6
    · exact Or.inl (low_lightModule sample p m0 (Or.inl (by rw [h0]; exact h)))
    · exact Or.inl (low_lightModule sample p m0 (Or.inr h3))
    · exact Or.inr h6
  rw [hfinal]
  exact low_delay_ms _ _ _ (low_buttonModule idr p hne _
    (low_obstacleAlert d p m2 (low_Ultrasonic_Get_Distance idr fuel p _ d m2 hdist h1)))

theorem echoFor580_low (i : Nat) (h : i < 2) :
    echoFor580 (startMachine.idrReads + i) &&& 2 = 0 := by
  have e : echoFor580 (startMachine.idrReads + i) = 1 := by
    simp only [echoFor580, startMachine]
    rw [if_neg (by omega)]
  rw [e]
  decide

theorem echoFor580_high (i : Nat) (h : i < 581) :
    echoFor580 (2 + i) &&& 2 ≠ 0 := by
  have e : echoFor580 (2 + i) = 3 := by
    simp only [echoFor580]
    rw [if_pos (by omega)]
  rw [e]
  decide

theorem echoFor580_end (i : Nat) : echoFor580 (583 + i) &&& 2 = 0 := by
  have e : echoFor580 (583 + i) = 1 := by
    simp only [echoFor580]
    rw [if_neg (by omega)]
  rw [e]
  decide

theorem loopPass_eq (sr idr : Nat → Nat) (sample fuel : Nat) (m m0 : Machine) (d : Nat)
    (m2 : Machine) (hadc : adcWait sr fuel m = some m0)
    (hdist : Ultrasonic_Get_Distance idr fuel (lightModule sample m0) = some (d, m2)) :
    loopPass sr idr sample fuel m =
      some (delay_ms 10 (buttonModule idr (obstacleAlert d m2))) := by
  simp only [loopPass, hadc, hdist]

theorem sameControl_Ultrasonic_Get_Distance (idr : Nat → Nat) (fuel : Nat) (a b : Machine)
    (d : Nat) (a2 : Machine) (hab : sameControl a b)
    (h : Ultrasonic_Get_Distance idr fuel a = some (d, a2)) :
    ∃ b2, Ultrasonic_Get_Distance idr fuel b = some (d, b2) ∧ sameControl a2 b2 := by
  unfold Ultrasonic_Get_Distance at h
  split at h
  · exact absurd h (by simp)
  · rename_i a1 hwait
    split at h
    · exact absurd h (by simp)
    · rename_i time a3 hloop
      obtain ⟨hd, ha⟩ := Prod.mk.inj (Option.some.inj h)
      obtain ⟨b1, hb1, h1⟩ := sameControl_echoWait idr fuel _ _ a1
        (sameControl_Ultrasonic_Send_Trigger a b hab) hwait
      obtain ⟨b3, hb3, h3⟩ := sameControl_pulseLoop idr fuel 0 a1 b1 time a3 h1 hloop
      refine ⟨b3, ?_, ha ▸ h3⟩
      simp only [Ultrasonic_Get_Distance, hb1, hb3, hd]

theorem sameControl_loopPass (sr idr : Nat → Nat) (sample fuel : Nat) (a b fa : Machine)
    (hab : sameControl a b) (h : loopPass sr idr sample fuel a = some fa) :
    ∃ fb, loopPass sr idr sample fuel b = some fb ∧ sameControl fa fb := by
  obtain ⟨a0, d, a2, hadc, hdist, hfinal⟩ := loopPass_some sr idr sample fuel a fa h
  obtain ⟨b0, hb0, h0⟩ := sameControl_adcWait sr fuel a b a0 hab hadc
  obtain ⟨b2, hb2, h2⟩ := sameControl_Ultrasonic_Get_Distance idr fuel _ _ d a2
    (sameControl_lightModule sample a0 b0 h0) hdist
  refine ⟨_, loopPass_eq sr idr sample fuel b b0 d b2 hb0 hb2, ?_⟩
  rw [hfinal]
  exact sameControl_delay_ms _ _ _ (sameControl_buttonModule idr _ _
    (sameControl_obstacleAlert d _ _ h2))

theorem echoFor580_bits (n : Nat) :
    (echoFor580 n + 16).testBit 0 = (echoFor580 n).testBit 0 ∧
    (echoFor580 n + 16).testBit 1 = (echoFor580 n).testBit 1 := by
  unfold echoFor580
  split <;> decide

theorem loopPass_scenario (odr : Nat) :
    loopPass adcReady echoFor580 150 30001 ⟨odr, 0, 0, 0, []⟩ =
      some (delay_ms 10 (buttonModule echoFor580 (obstacleAlert 10
        (afterPulse (afterEchoWait (lightModule 150 ⟨odr, 0, 0, 1, []⟩) 2) 580 581)))) := by
  have hadc : adcWait adcReady 30001 ⟨odr, 0, 0, 0, []⟩ = some ⟨odr, 0, 0, 1, []⟩ :=
    adcWait_run adcReady 0 30001 ⟨odr, 0, 0, 0, []⟩ (fun i hi => by omega)
      (by simp [adcReady]) (by omega)
  have hr : (lightModule 150 ⟨odr, 0, 0, 1, []⟩).idrReads = 0 :=
    lightModule_dark_idrReads 150 _ (by decide) (by decide)
  have hdist := Ultrasonic_Get_Distance_exact echoFor580
      (lightModule 150 ⟨odr, 0, 0, 1, []⟩) 2 580 30001
      (fun i hi => by rw [hr]; exact echoFor580_low i hi)
      (by rw [hr]; exact echoFor580_high 0 (by omega))
      (fun i hi => by
        rw [hr]
        have := echoFor580_high (1 + i) (by omega)
        rwa [show 2 + (1 + i) = 0 + 2 + 1 + i by omega] at this)
      (by rw [hr]; exact echoFor580_end 0)
      (by omega) (by omega) (by omega)
  rw [show 580 / 58 = 10 by decide] at hdist
  exact loopPass_eq adcReady echoFor580 150 30001 ⟨odr, 0, 0, 0, []⟩ ⟨odr, 0, 0, 1, []⟩ 10
    (afterPulse (afterEchoWait (lightModule 150 ⟨odr, 0, 0, 1, []⟩) 2) 580 (580 + 1))
    hadc hdist

/-! ## The buzzer -/

/-- C1 (the code at an input where the product leaves 32 bits):
`Buzzer_Beep(5000, 1000000)` drives PA5 through 705032 HIGH-then-LOW pairs,
which is `((5000 * 1000000) % 2 ^ 32) / 1000`, and not through the
`5000 * 1000000 / 1000 = 5000000` pairs of the true product. -/
theorem Buzzer_Beep_product_wraps (m : Machine) :
    (Buzzer_Beep 5000 1000000 m).trace =
        m.trace ++ (List.replicate 705032
          [Event.setPin 5, Event.delay_us 100,
           Event.clearPin 5, Event.delay_us 100]).flatten
      ∧ 705032 ≠ 5000 * 1000000 / 1000 := by
  refine ⟨?_, by decide⟩
  exact Buzzer_Beep_trace 5000 1000000 m (by decide)

/-- C6: `Buzzer_Beep(0, duration_ms)` leaves the whole machine state as it was:
the output register, the count of busy-loop iterations and the log of pin
writes and delay calls are unchanged. -/
theorem Buzzer_Beep_zero_frequency (duration_ms : Nat) (m : Machine) :
    Buzzer_Beep 0 duration_ms m = m := by
  simp [Buzzer_Beep]

/-- C7: for `frequency > 0` the pin writes and delays of
`Buzzer_Beep(frequency, duration_ms)` are, cycle after cycle, PA5 HIGH, a delay
of `500000 / frequency`, PA5 LOW, a delay of the same `500000 / frequency`; and
the half period `(1000000 / frequency) / 2` the code computes is that value. -/
theorem Buzzer_Beep_half_period (frequency duration_ms : Nat) (m : Machine)
    (hf : 0 < frequency) :
    1000000 / frequency / 2 = 500000 / frequency ∧
    (Buzzer_Beep frequency duration_ms m).trace =
      m.trace ++ (List.replicate (((frequency * duration_ms) % 2 ^ 32) / 1000)
        [Event.setPin 5, Event.delay_us (500000 / frequency),
         Event.clearPin 5, Event.delay_us (500000 / frequency)]).flatten := by
  have hhalf : 1000000 / frequency / 2 = 500000 / frequency := by
    rw [Nat.div_div_eq_div_mul]
    show 500000 * 2 / (frequency * 2) = 500000 / frequency
    exact Nat.mul_div_mul_right 500000 frequency (by decide : 0 < 2)
  refine ⟨hhalf, ?_⟩
  rw [Buzzer_Beep_trace frequency duration_ms m (by omega), hhalf]

/-- C7 at 2800 Hz, 100 ms: 280 cycles with half period 178. -/
theorem Buzzer_Beep_half_period_witness :
    0 < 2800 ∧
    1000000 / 2800 / 2 = 500000 / 2800 ∧
    (Buzzer_Beep 2800 100 ⟨0, 0, 0, 0, []⟩).trace =
      [] ++ (List.replicate (((2800 * 100) % 2 ^ 32) / 1000)
        [Event.setPin 5, Event.delay_us (500000 / 2800),
         Event.clearPin 5, Event.delay_us (500000 / 2800)]).flatten :=
  ⟨by decide, Buzzer_Beep_half_period 2800 100 ⟨0, 0, 0, 0, []⟩ (by decide)⟩

/-! ## Ultrasonic ranging -/

/-- C3 (as stated, refuted): on a stream whose echo, after first reading HIGH,
reads HIGH on 30044 consecutive loads and then LOW, `Ultrasonic_Get_Distance`
returns 517, which is `30001 / 58`, and not `30044 / 58 = 518`: the measurement
loop is left by its timeout before it samples the LOW reading. -/
theorem Ultrasonic_Get_Distance_long_echo :
    echoFor30044 0 &&& 2 ≠ 0 ∧
    (∀ i, i < 30044 → echoFor30044 (1 + i) &&& 2 ≠ 0) ∧
    echoFor30044 (1 + 30044) &&& 2 = 0 ∧
    Ultrasonic_Get_Distance echoFor30044 30001 startMachine =
      some (517, afterPulse (afterEchoWait startMachine 0) 30001 30001) ∧
    30044 / 58 = 518 := by
  refine ⟨echoFor30044_high 0 (by omega), fun i hi => echoFor30044_high (1 + i) (by omega),
    echoFor30044_low _ (by omega), ?_, by decide⟩
  have h := Ultrasonic_Get_Distance_timeout echoFor30044 startMachine 0 30001
    (fun i hi => by omega)
    (echoFor30044_high _ (by simp [startMachine]))
    (fun i hi => echoFor30044_high _ (by simp only [startMachine]; omega))
    (by omega) (by omega)
  rw [show 30001 / 58 = 517 by decide] at h
  exact h

/-- C3 (amended): when the echo first reads HIGH on the `j`-th load after the
trigger, then reads HIGH on exactly `k` consecutive loads and then LOW, the
elapsed-time counter of the measurement loop ends at `min k 30001` and
`Ultrasonic_Get_Distance` returns that value divided by 58 (truncating); the
value returned is `k / 58` for every `k ≤ 30043`. -/
theorem Ultrasonic_Get_Distance_capped (idr : Nat → Nat) (m : Machine) (j k fuel : Nat)
    (hlow : ∀ i, i < j → idr (m.idrReads + i) &&& 2 = 0)
    (hfirst : idr (m.idrReads + j) &&& 2 ≠ 0)
    (hhigh : ∀ i, i < k → idr (m.idrReads + j + 1 + i) &&& 2 ≠ 0)
    (hend : idr (m.idrReads + j + 1 + k) &&& 2 = 0)
    (hj : j < fuel) (hfuel : 30001 ≤ fuel) :
    pulseLoop idr fuel 0 (afterEchoWait m j) =
      some (min k 30001,
        afterPulse (afterEchoWait m j) (min k 30001) (min (k + 1) 30001)) ∧
    Ultrasonic_Get_Distance idr fuel m =
      some (min k 30001 / 58,
        afterPulse (afterEchoWait m j) (min k 30001) (min (k + 1) 30001)) ∧
    (k ≤ 30043 →
      Ultrasonic_Get_Distance idr fuel m =
        some (k / 58,
          afterPulse (afterEchoWait m j) (min k 30001) (min (k + 1) 30001))) := by
  have hdiv : k ≤ 30043 → min k 30001 / 58 = k / 58 := by
    intro hk
    omega
  by_cases hk : k ≤ 30000
  · have e1 : min k 30001 = k := by omega
    have e2 : min (k + 1) 30001 = k + 1 := by omega
    have hrun : pulseLoop idr fuel 0 (afterEchoWait m j) =
        some (k, afterPulse (afterEchoWait m j) k (k + 1)) := by
      rw [pulseLoop_run idr k fuel (afterEchoWait m j) hhigh hend hk hfuel]
      rfl
    have hret := Ultrasonic_Get_Distance_exact idr m j k fuel hlow hfirst hhigh hend hk hj
      hfuel
    rw [e1, e2]
    exact ⟨hrun, hret, fun _ => hret⟩
  · have e1 : min k 30001 = 30001 := by omega
    have e2 : min (k + 1) 30001 = 30001 := by omega
    have hhigh2 : ∀ i, i < 30001 → idr (m.idrReads + j + 1 + i) &&& 2 ≠ 0 :=
      fun i hi => hhigh i (by omega)
    have hrun : pulseLoop idr fuel 0 (afterEchoWait m j) =
        some (30001, afterPulse (afterEchoWait m j) 30001 30001) := by
      rw [pulseLoop_timeout idr fuel (afterEchoWait m j) hhigh2 hfuel]
      rfl
    have hret := Ultrasonic_Get_Distance_timeout idr m j fuel hlow hfirst hhigh2 hj hfuel
    refine ⟨by rw [e1, e2]; exact hrun, by rw [e1, e2]; exact hret, fun hk2 => ?_⟩
    rw [← hdiv hk2, e1, e2]
    exact hret

/-- C3 (amended) on a stream whose echo, after first reading HIGH, reads HIGH on
580 consecutive loads and then LOW: the distance returned is 10. -/
theorem Ultrasonic_Get_Distance_capped_witness :
    ∃ m2, Ultrasonic_Get_Distance echoFor580 30001 startMachine = some (10, m2) := by
  have hidx : ∀ i, startMachine.idrReads + 2 + 1 + i = 2 + (1 + i) := by
    intro i
    simp only [startMachine]
    omega
  have h := (Ultrasonic_Get_Distance_capped echoFor580 startMachine 2 580 30001
    echoFor580_low
    (by simpa [startMachine] using echoFor580_high 0 (by omega))
    (fun i hi => by rw [hidx]; exact echoFor580_high (1 + i) (by omega))
    (by rw [hidx]; exact echoFor580_end 0)
    (by omega) (by omega)).2.2 (by omega)
  rw [show 580 / 58 = 10 by decide] at h
  exact ⟨_, h⟩

/-- C4 (as stated, refuted): with the echo stuck HIGH the measurement loop is
left with its counter at 30001, above 30000. -/
theorem pulseLoop_counter_exceeds_30000 :
    echoWait echoStuckHigh 30001 (Ultrasonic_Send_Trigger startMachine) =
        some (afterEchoWait startMachine 0) ∧
      pulseLoop echoStuckHigh 30001 0 (afterEchoWait startMachine 0) =
        some (30001, afterPulse (afterEchoWait startMachine 0) 30001 30001) ∧
      ¬ (30001 ≤ 30000) := by
  refine ⟨?_, ?_, by decide⟩
  · rw [echoWait_run echoStuckHigh 0 30001 (Ultrasonic_Send_Trigger startMachine)
      (fun i hi => by omega) (by simp [echoStuckHigh]) (by omega)]
    simp [afterEchoWait, Ultrasonic_Send_Trigger_eq]
  · rw [pulseLoop_timeout echoStuckHigh 30001 _ (fun i _ => by simp [echoStuckHigh])
      (by omega)]
    rfl

/-- C4 (amended): for every stream of echo readings and every state the
measurement loop is entered in, the loop ends and the final value of its
elapsed-time counter, from which `Ultrasonic_Get_Distance` computes the
distance, is at most 30001. -/
theorem pulseLoop_counter_le_30001 (idr : Nat → Nat) (fuel : Nat) (m : Machine)
    (hfuel : 30001 ≤ fuel) :
    ∃ time m2, pulseLoop idr fuel 0 m = some (time, m2) ∧ time ≤ 30001 := by
  obtain ⟨time, polls, hrun, -, hcap, -, -⟩ :=
    pulseLoop_total idr fuel 0 m (by omega) (by omega)
  exact ⟨time, _, hrun, hcap⟩

/-- C4 (amended) on a stream whose echo is stuck HIGH. -/
theorem pulseLoop_counter_le_30001_witness :
    30001 ≤ 30001 ∧
    ∃ time m2, pulseLoop echoStuckHigh 30001 0 startMachine = some (time, m2) ∧
      time ≤ 30001 :=
  ⟨by decide, pulseLoop_counter_le_30001 echoStuckHigh 30001 startMachine (by decide)⟩

/-- C5: when the echo first reads HIGH on the `j`-th load after the trigger,
`Ultrasonic_Get_Distance` returns a distance of at most 517; and when the echo
then reads HIGH on 30001 consecutive polls of the measurement loop, the
distance returned is exactly 517. -/
theorem Ultrasonic_Get_Distance_le_517 (idr : Nat → Nat) (m : Machine) (j fuel : Nat)
    (hlow : ∀ i, i < j → idr (m.idrReads + i) &&& 2 = 0)
    (hfirst : idr (m.idrReads + j) &&& 2 ≠ 0)
    (hj : j < fuel) (hfuel : 30001 ≤ fuel) :
    ∃ d m2,
      Ultrasonic_Get_Distance idr fuel m = some (d, m2) ∧ d ≤ 517 ∧
      ((∀ i, i < 30001 → idr (m.idrReads + j + 1 + i) &&& 2 ≠ 0) → d = 517) := by
  obtain ⟨time, polls, -, -, hret, hcap, -, hcase⟩ :=
    Ultrasonic_Get_Distance_run idr m j fuel hlow hfirst hj hfuel
  refine ⟨time / 58, _, hret, by omega, ?_⟩
  intro hhigh
  rcases hcase with ⟨-, hl, hlt⟩ | ⟨-, ht⟩
  · exact absurd hl (hhigh time (by omega))
  · omega

/-- C5 on a stream whose echo is stuck HIGH: the distance returned is 517. -/
theorem Ultrasonic_Get_Distance_le_517_witness :
    ∃ m2, Ultrasonic_Get_Distance echoStuckHigh 30001 startMachine = some (517, m2) := by
  obtain ⟨d, m2, hret, -, h517⟩ :=
    Ultrasonic_Get_Distance_le_517 echoStuckHigh startMachine 0 30001
      (fun i hi => by omega) (by decide) (by omega) (by omega)
  have hd : d = 517 := h517 (fun i _ => by simp [echoStuckHigh])
  subst hd
  exact ⟨m2, hret⟩

/-! ## The modules of the control loop -/

/-- C2: for every distance `d`, the gate of module 2 runs
`Buzzer_Beep(2000, 200)` and then `delay_ms(100)`, logging 400 buzzer cycles
with half period 250 and 100 delays of 1000 µs, exactly when `d` is neither 3
nor 4; for `d = 3` and `d = 4` it does nothing. -/
theorem obstacleAlert_iff (d : Nat) (m : Machine) :
    (obstacleAlert d m = delay_ms 100 (Buzzer_Beep 2000 200 m) ↔ (d ≠ 3 ∧ d ≠ 4)) ∧
    ((obstacleAlert d m).trace =
        m.trace ++ (List.replicate 400
          [Event.setPin 5, Event.delay_us 250, Event.clearPin 5, Event.delay_us 250]).flatten
          ++ List.replicate 100 (Event.delay_us 1000) ↔ (d ≠ 3 ∧ d ≠ 4)) ∧
    (obstacleAlert d m = m ↔ (d = 3 ∨ d = 4)) := by
  have htone : (delay_ms 100 (Buzzer_Beep 2000 200 m)).trace =
      m.trace ++ (List.replicate 400
          [Event.setPin 5, Event.delay_us 250, Event.clearPin 5, Event.delay_us 250]).flatten
          ++ List.replicate 100 (Event.delay_us 1000) := by
    rw [delay_ms_trace, Buzzer_Beep_2000_200_trace]
  have hne : ∀ l : List Event, m.trace ≠ m.trace ++ l ++ List.replicate 100 (Event.delay_us 1000) := by
    intro l h
    rw [List.append_assoc, List.self_eq_append_right, List.append_eq_nil] at h
    exact absurd h.2 (by rw [List.replicate_eq_nil_iff]; decide)
  by_cases hd : d < 5 ∧ d > 2
  · have hm : obstacleAlert d m = m := by
      unfold obstacleAlert
      rw [if_neg (not_not.mpr hd)]
    rw [hm]
    refine ⟨⟨fun h => ?_, fun h => by omega⟩, ⟨fun h => ?_, fun h => by omega⟩,
      ⟨fun _ => by omega, fun _ => rfl⟩⟩
    · have ht := congrArg Machine.trace h
      rw [htone] at ht
      exact (hne _ ht).elim
    · exact (hne _ h).elim
  · have hm : obstacleAlert d m = delay_ms 100 (Buzzer_Beep 2000 200 m) := by
      unfold obstacleAlert
      rw [if_pos hd]
    rw [hm]
    refine ⟨⟨fun _ => by omega, fun _ => rfl⟩, ⟨fun _ => by omega, fun _ => htone⟩,
      ⟨fun h => ?_, fun h => by omega⟩⟩
    have ht := congrArg Machine.trace h
    rw [htone] at ht
    exact (hne _ ht.symm).elim

/-- C2 at the distances 3, 4, 0, 2, 5 and 100: nothing happens for 3 and 4, the
tone and the pause are run for the other four. -/
theorem obstacleAlert_iff_examples :
    obstacleAlert 3 startMachine = startMachine ∧
    obstacleAlert 4 startMachine = startMachine ∧
    obstacleAlert 0 startMachine = delay_ms 100 (Buzzer_Beep 2000 200 startMachine) ∧
    obstacleAlert 2 startMachine = delay_ms 100 (Buzzer_Beep 2000 200 startMachine) ∧
    obstacleAlert 5 startMachine = delay_ms 100 (Buzzer_Beep 2000 200 startMachine) ∧
    obstacleAlert 100 startMachine = delay_ms 100 (Buzzer_Beep 2000 200 startMachine) :=
  ⟨(obstacleAlert_iff 3 startMachine).2.2.mpr (by decide),
   (obstacleAlert_iff 4 startMachine).2.2.mpr (by decide),
   (obstacleAlert_iff 0 startMachine).1.mpr (by decide),
   (obstacleAlert_iff 2 startMachine).1.mpr (by decide),
   (obstacleAlert_iff 5 startMachine).1.mpr (by decide),
   (obstacleAlert_iff 100 startMachine).1.mpr (by decide)⟩

/-- C10: in a pass where the conversion completes, the sample exceeds 100, the
measured distance `d` is neither 3 nor 4 and PA0 reads HIGH, the pass ends and
its log is, in order: PA3 HIGH, 100 ms of delay, PA3 LOW, 100 ms of delay; the
trigger pulse on PA6 (HIGH, 10 µs, LOW) and one 1 µs delay per count of the
echo counter `time`, with `time / 58 = d`; the 400 cycles of
`Buzzer_Beep(2000, 200)` and 100 ms of delay; PA2 LOW with no emergency tone;
10 ms of delay.  PA2 is LOW at the end. -/
theorem loopPass_trace (sr idr : Nat → Nat) (sample fuel : Nat) (m m0 : Machine)
    (d : Nat) (m2 : Machine)
    (hadc : adcWait sr fuel m = some m0)
    (hsample : 100 < sample) (hrange : sample < 2 ^ 31)
    (hdist : Ultrasonic_Get_Distance idr fuel (lightModule sample m0) = some (d, m2))
    (hd : d ≠ 3 ∧ d ≠ 4)
    (hbutton : idr m2.idrReads &&& 1 ≠ 0) :
    ∃ time final, time / 58 = d ∧
      loopPass sr idr sample fuel m = some final ∧
      final.trace =
        m.trace ++ [Event.setPin 3] ++ List.replicate 100 (Event.delay_us 1000)
          ++ [Event.clearPin 3] ++ List.replicate 100 (Event.delay_us 1000)
          ++ [Event.setPin 6, Event.delay_us 10, Event.clearPin 6]
          ++ List.replicate time (Event.delay_us 1)
          ++ (List.replicate 400
              [Event.setPin 5, Event.delay_us 250, Event.clearPin 5, Event.delay_us 250]).flatten
          ++ List.replicate 100 (Event.delay_us 1000)
          ++ [Event.clearPin 2]
          ++ List.replicate 10 (Event.delay_us 1000) ∧
      final.odr.testBit 2 = false := by
  obtain ⟨a, ha⟩ := adcWait_some sr fuel m m0 hadc
  obtain ⟨n, time, polls, hdt, -, hm2⟩ :=
    Ultrasonic_Get_Distance_some idr fuel (lightModule sample m0) d m2 hdist
  have hreads : (obstacleAlert d m2).idrReads = m2.idrReads := by
    rw [obstacleAlert_outside d m2 hd, delay_ms_idrReads, Buzzer_Beep_idrReads]
  have hbm : buttonModule idr (obstacleAlert d m2) =
      clearBit 2 { obstacleAlert d m2 with idrReads := (obstacleAlert d m2).idrReads + 1 } :=
    buttonModule_released idr _ (by rw [hreads]; exact hbutton)
  have hpass : loopPass sr idr sample fuel m =
      some (delay_ms 10 (buttonModule idr (obstacleAlert d m2))) := by
    simp only [loopPass, hadc, hdist]
  refine ⟨time, _, hdt.symm, hpass, ?_, ?_⟩
  · have h0 : m0.trace = m.trace := by rw [ha]
    have h1 := lightModule_dark_trace sample m0 hsample hrange
    have h2 : m2.trace = (lightModule sample m0).trace
        ++ [Event.setPin 6, Event.delay_us 10, Event.clearPin 6]
        ++ List.replicate time (Event.delay_us 1) := by
      rw [hm2]
      simp only [afterPulse, afterEchoWait, Ultrasonic_Send_Trigger_eq]
    have h3 : (obstacleAlert d m2).trace = m2.trace ++ (List.replicate 400
          [Event.setPin 5, Event.delay_us 250, Event.clearPin 5, Event.delay_us 250]).flatten
          ++ List.replicate 100 (Event.delay_us 1000) := by
      rw [obstacleAlert_outside d m2 hd, delay_ms_trace, Buzzer_Beep_2000_200_trace]
    have h4 : (buttonModule idr (obstacleAlert d m2)).trace =
        (obstacleAlert d m2).trace ++ [Event.clearPin 2] := by
      rw [hbm]
      simp only [clearBit]
    rw [delay_ms_trace, h4, h3, h2, h1, h0]
  · rw [delay_ms_odr, hbm]
    exact testBit_clear_self _ 2 (by decide)

/-- C10 on the scenario sample = 150, echo HIGH for 580 polls (distance 10),
button released. -/
theorem loopPass_trace_witness :
    ∃ time final, time / 58 = 10 ∧
      loopPass adcReady echoFor580 150 30001 startMachine = some final ∧
      final.trace =
        startMachine.trace ++ [Event.setPin 3] ++ List.replicate 100 (Event.delay_us 1000)
          ++ [Event.clearPin 3] ++ List.replicate 100 (Event.delay_us 1000)
          ++ [Event.setPin 6, Event.delay_us 10, Event.clearPin 6]
          ++ List.replicate time (Event.delay_us 1)
          ++ (List.replicate 400
              [Event.setPin 5, Event.delay_us 250, Event.clearPin 5, Event.delay_us 250]).flatten
          ++ List.replicate 100 (Event.delay_us 1000)
          ++ [Event.clearPin 2]
          ++ List.replicate 10 (Event.delay_us 1000) ∧
      final.odr.testBit 2 = false := by
  have hadc : adcWait adcReady 30001 startMachine = some { startMachine with srReads := 1 } :=
    adcWait_run adcReady 0 30001 startMachine (fun i hi => by omega)
      (by simp [adcReady]) (by omega)
  have hr : (lightModule 150 { startMachine with srReads := 1 }).idrReads = 0 :=
    lightModule_dark_idrReads 150 _ (by decide) (by decide)
  have hdist := Ultrasonic_Get_Distance_exact echoFor580
      (lightModule 150 { startMachine with srReads := 1 }) 2 580 30001
      (fun i hi => by rw [hr]; exact echoFor580_low i hi)
      (by rw [hr]; exact echoFor580_high 0 (by omega))
      (fun i hi => by
        rw [hr]
        have := echoFor580_high (1 + i) (by omega)
        rwa [show 2 + (1 + i) = 0 + 2 + 1 + i by omega] at this)
      (by rw [hr]; exact echoFor580_end 0)
      (by omega) (by omega) (by omega)
  have hbutton : echoFor580
      (afterPulse (afterEchoWait (lightModule 150 { startMachine with srReads := 1 }) 2)
        580 (580 + 1)).idrReads &&& 1 ≠ 0 := by
    rw [afterPulse_idrReads, afterEchoWait_idrReads, hr]
    decide
  rw [show 580 / 58 = 10 by decide] at hdist
  exact loopPass_trace adcReady echoFor580 150 30001 startMachine
    { startMachine with srReads := 1 } 10 _ hadc (by decide) (by decide) hdist
    (by decide) hbutton

/-! ## Termination of the measurement and the timing service -/

/-- C11: for every stream of echo readings, the stream that stays HIGH for ever
included, and every state in which the measurement loop is entered, the loop
ends: it makes at most 30001 passes through its body (`time`) and tests its
condition at most 30001 times (`polls`), so 30001 steps of fuel always
suffice. -/
theorem pulseLoop_terminates (idr : Nat → Nat) (m : Machine) (extra : Nat) :
    ∃ time polls,
      pulseLoop idr (30001 + extra) 0 m = some (time, afterPulse m time polls) ∧
      time ≤ 30001 ∧ polls ≤ 30001 := by
  obtain ⟨time, polls, hrun, -, hcap, -, hcase⟩ :=
    pulseLoop_total idr (30001 + extra) 0 m (by omega) (by omega)
  simp only [Nat.sub_zero] at hrun hcase
  refine ⟨time, polls, ?_, hcap, ?_⟩
  · rw [hrun]
    rfl
  · rcases hcase with ⟨hp, -, hlt⟩ | ⟨hp, ht⟩ <;> omega

/-- C12 (the code at an argument where `us * 8` leaves 32 bits):
`delay_us(536870912)` logs its call and returns without one pass through its
busy loop, since `536870912 * 8 = 2 ^ 32` wraps to 0, while `delay_us(1)` makes 8
passes: the larger delay runs fewer iterations than the smaller one and far
fewer than `8 * 536870912`. -/
theorem delay_us_wraps (m : Machine) :
    delay_us 536870912 m = { m with trace := m.trace ++ [Event.delay_us 536870912] } ∧
    (delay_us 536870912 m).nops = m.nops ∧
    (delay_us 1 m).nops = m.nops + 8 ∧
    m.nops < m.nops + 8 * 536870912 := by
  refine ⟨?_, ?_, ?_, by omega⟩
  · rw [delay_us_eq]
    simp
  · rw [delay_us_eq]
    simp
  · rw [delay_us_eq]
    simp

/-- C13: `delay_ms(ms)` is `ms` consecutive calls of `delay_us(1000)` and
nothing else: the log grows by `ms` such calls, the busy loop runs `8000 * ms`
times in all, and the output register and the load counters are unchanged. -/
theorem delay_ms_calls (ms : Nat) (m : Machine) :
    delay_ms ms m =
      { m with nops := m.nops + 8000 * ms,
               trace := m.trace ++ List.replicate ms (Event.delay_us 1000) } := by
  rw [delay_ms_eq, Nat.mul_comm ms 8000]

/-- C15: for `frequency > 0` the delays `Buzzer_Beep(frequency, duration_ms)`
asks for add up to `cycles * 2 * half_period_us`, with `cycles` and
`half_period_us` as the code computes them, and that total is at most
`1000 * duration_ms`. -/
theorem Buzzer_Beep_total_delay (frequency duration_ms : Nat) (m : Machine)
    (hf : 0 < frequency) :
    requestedDelay (Buzzer_Beep frequency duration_ms m).trace =
      requestedDelay m.trace +
        ((frequency * duration_ms) % 2 ^ 32 / 1000) * 2 * (1000000 / frequency / 2) ∧
    ((frequency * duration_ms) % 2 ^ 32 / 1000) * 2 * (1000000 / frequency / 2) ≤
      1000 * duration_ms := by
  refine ⟨?_, cycles_mul_period_le frequency duration_ms hf⟩
  rw [Buzzer_Beep_trace frequency duration_ms m (by omega), requestedDelay_append,
    requestedDelay_cycles]

/-- C15 at the two tones of the control loop: `(2000, 200)` asks for 200000 µs
in all, `(2800, 100)` for 99680 µs. -/
theorem Buzzer_Beep_total_delay_witness :
    requestedDelay (Buzzer_Beep 2000 200 startMachine).trace = 200000 ∧
    200000 ≤ 1000 * 200 ∧
    requestedDelay (Buzzer_Beep 2800 100 startMachine).trace = 99680 ∧
    99680 ≤ 1000 * 100 := by
  have h1 := Buzzer_Beep_total_delay 2000 200 startMachine (by decide)
  have h2 := Buzzer_Beep_total_delay 2800 100 startMachine (by decide)
  have e0 : requestedDelay startMachine.trace = 0 := rfl
  rw [e0] at h1 h2
  norm_num at h1 h2
  exact ⟨h1, by decide, h2, by decide⟩

/-! ## Frame and invariant of a pass -/

/-- C14: a pass of the control loop that ends in state `final` leaves every bit
of the 32-bit output register other than bits 2, 3, 5 and 6 as it was (so bits
0, 1 and 4 are not changed) and logs pin writes to PA2, PA3, PA5 and PA6 only;
the pass is the same for every input stream that agrees with `idr` on bits 0
and 1 of each load, and from a state with another value of the output register
it ends after the same loads, delays and pin writes. -/
theorem loopPass_frame (sr idr : Nat → Nat) (sample fuel : Nat) (m final : Machine)
    (hpass : loopPass sr idr sample fuel m = some final) :
    (∀ p, p < 32 → p ≠ 2 → p ≠ 3 → p ≠ 5 → p ≠ 6 →
      final.odr.testBit p = m.odr.testBit p) ∧
    (∃ added, final.trace = m.trace ++ added ∧
      ∀ p, (Event.setPin p ∈ added ∨ Event.clearPin p ∈ added) →
        p = 2 ∨ p = 3 ∨ p = 5 ∨ p = 6) ∧
    (∀ idr2 : Nat → Nat,
      (∀ n, (idr2 n).testBit 0 = (idr n).testBit 0 ∧
        (idr2 n).testBit 1 = (idr n).testBit 1) →
      loopPass sr idr2 sample fuel m = some final) ∧
    (∀ odr2 : Nat, ∃ final2,
      loopPass sr idr sample fuel { m with odr := odr2 } = some final2 ∧
      final2.nops = final.nops ∧ final2.idrReads = final.idrReads ∧
      final2.srReads = final.srReads ∧ final2.trace = final.trace) := by
  obtain ⟨hbits, added, htrace, hadded⟩ := outputsOnly_loopPass sr idr sample fuel m final hpass
  refine ⟨?_, ⟨added, htrace, hadded⟩, ?_, ?_⟩
  · intro p hp h2 h3 h5 h6
    refine hbits p hp ?_
    intro hout
    rcases hout with h | h | h | h
    · exact h2 h
    · exact h3 h
    · exact h5 h
    · exact h6 h
  · intro idr2 hagree
    rw [loopPass_congr sr idr idr2 hagree sample fuel m]
    exact hpass
  · intro odr2
    obtain ⟨final2, hpass2, h1, h2, h3, h4⟩ :=
      sameControl_loopPass sr idr sample fuel m { m with odr := odr2 } final
        ⟨rfl, rfl, rfl, rfl⟩ hpass
    exact ⟨final2, hpass2, h1.symm, h2.symm, h3.symm, h4.symm⟩

/-- C14 on the pass with sample 150, distance 10 and the button released, entered
with bits 0, 1 and 4 of the output register set (value 19): the three bits are
still set at the end, and the pass is the same when bit 4 of every load of the
input register is flipped. -/
theorem loopPass_frame_witness :
    ∃ final, loopPass adcReady echoFor580 150 30001 ⟨19, 0, 0, 0, []⟩ = some final ∧
      final.odr.testBit 0 = true ∧ final.odr.testBit 1 = true ∧
      final.odr.testBit 4 = true ∧
      loopPass adcReady (fun n => echoFor580 n + 16) 150 30001 ⟨19, 0, 0, 0, []⟩ =
        some final := by
  have hpass := loopPass_scenario 19
  obtain ⟨hbits, -, hcongr, -⟩ :=
    loopPass_frame adcReady echoFor580 150 30001 ⟨19, 0, 0, 0, []⟩ _ hpass
  refine ⟨_, hpass, ?_, ?_, ?_, hcongr _ echoFor580_bits⟩
  · exact (hbits 0 (by decide) (by decide) (by decide) (by decide) (by decide)).trans
      (by decide)
  · exact (hbits 1 (by decide) (by decide) (by decide) (by decide) (by decide)).trans
      (by decide)
  · exact (hbits 4 (by decide) (by decide) (by decide) (by decide) (by decide)).trans
      (by decide)

/-- C16: if bits 3, 5 and 6 of the output register are all LOW when a pass of
the control loop starts, they are all LOW in the state in which it ends. -/
theorem loopPass_outputs_low (sr idr : Nat → Nat) (sample fuel : Nat) (m final : Machine)
    (hpass : loopPass sr idr sample fuel m = some final)
    (h3 : m.odr.testBit 3 = false) (h5 : m.odr.testBit 5 = false)
    (h6 : m.odr.testBit 6 = false) :
    final.odr.testBit 3 = false ∧ final.odr.testBit 5 = false ∧
      final.odr.testBit 6 = false :=
  ⟨low_loopPass sr idr sample fuel 3 m final hpass (by decide) (Or.inl h3),
   low_loopPass sr idr sample fuel 5 m final hpass (by decide) (Or.inl h5),
   low_loopPass sr idr sample fuel 6 m final hpass (by decide) (Or.inl h6)⟩

/-- C16 on the pass with sample 150, distance 10 and the button released, entered
with the output register at 19 (bits 3, 5 and 6 LOW). -/
theorem loopPass_outputs_low_witness :
    ∃ final, loopPass adcReady echoFor580 150 30001 ⟨19, 0, 0, 0, []⟩ = some final ∧
      final.odr.testBit 3 = false ∧ final.odr.testBit 5 = false ∧
      final.odr.testBit 6 = false :=
  ⟨_, loopPass_scenario 19,
    loopPass_outputs_low adcReady echoFor580 150 30001 ⟨19, 0, 0, 0, []⟩ _
      (loopPass_scenario 19) (by decide) (by decide) (by decide)⟩

end BlindStick
